import Mathlib

/-!
# BufferLib `array_buffer`: a shallow embedding

Source: `include/array_buffer.h`, class template
`BufferLib::array_buffer<TStorageDataType, TCapacity>`.

Modelling conventions.

* `size_type_t` is `int`.  Cursor values are `Int`; every `int` addition or
  subtraction of the source is followed by `wrap_int`, the 32-bit
  two's-complement wrap-around.  `TCapacity` is an `int` template argument that
  sizes a `std::array`, so it is a natural number; theorems that need it say
  `cap ≤ INT_MAX`.
* The storage `m_buf` is modelled at byte granularity, because `memcpy` and
  `memset` count bytes: it is a list of `TCapacity * sizeof(TStorageDataType)`
  bytes, and element `i` occupies the bytes
  `[i * elem_size, (i + 1) * elem_size)`.
* `memcpy` is the ascending byte-by-byte copy.  The source calls it with a
  destination that lies at or below the source address.
* An access outside the storage is undefined behaviour in the source, where it
  can overwrite the data members behind `m_buf`.  The model stays total there:
  a read past the end yields `0`, a write past the end is dropped, and a
  negative index is taken as offset `0`; `relocate_in_bounds` says that the
  copy of `relocate` stays inside the storage.  Every general theorem about
  what a call sequence leaves behind assumes `args_in_range`, which keeps the
  cursors valid and every access in bounds.
* The field `copied` of `outcome` and the `Bool` returned by `relocate` are ghost
  values: they record that the copy branch of `relocate` was executed.
* Pointers (`read_ptr()`, `write_ptr()`, `raw_ptr()`) are element offsets from the
  start of the storage.
* `to_stream` returns the text it appends to the stream.  The macro
  `BUFFERLIB_NEWLINE` of `bufferlib_common.h` depends on the platform and is a
  parameter.  Integral elements are decoded little-endian, two's complement when
  signed; the text of `std::to_string` for floating-point elements is a parameter.
  The definitions `spec_digit`, `spec_hex`, `spec_value`, `spec_marker` and
  `spec_dump` follow the words of the specification and use none of the
  definitions that model the source.
-/

namespace BufferLib

/-- Largest value of the source type `int` (32 bits). -/
def INT_MAX : Int := 2147483647

/-- Smallest value of the source type `int` (32 bits). -/
def INT_MIN : Int := -2147483648

/-- Result of an `int` operation whose mathematical value is `x`:
32-bit two's-complement wrap-around. -/
def wrap_int (x : Int) : Int := (x + 2147483648) % 4294967296 - 2147483648

/-- Conversion of an `int` to the 64-bit `size_t` count parameter of
`memcpy` and `memset`. -/
def to_size_t (x : Int) : Nat := (x % 18446744073709551616).toNat

/-- Library routine `memcpy(dst, src, n)` over a byte store, offsets counted from
the start of the store: ascending byte-by-byte copy. -/
def memcpy (mem : List Nat) (dst src : Nat) : Nat → List Nat
  | 0 => mem
  | n + 1 => memcpy (mem.set dst (mem.getD src 0)) (dst + 1) (src + 1) n

/-- Library routine `memset(dst, val, n)` over a byte store. -/
def memset (mem : List Nat) (dst val : Nat) : Nat → List Nat
  | 0 => mem
  | n + 1 => memset (mem.set dst val) (dst + 1) val n

/-- Data members of `array_buffer<TStorageDataType, TCapacity>`; `elem_size` is
`sizeof(TStorageDataType)`.  `m_buf` holds the bytes of the `std::array`. -/
structure array_buffer (elem_size TCapacity : Nat) where
  m_buf : List Nat
  m_read_index : Int
  m_write_index : Int
  m_min_free : Int
  deriving DecidableEq

/-- What a mutator call leaves behind: the returned `int`, the object after the
call, and a ghost flag telling whether the `memcpy` of `relocate` was executed
during the call. -/
structure outcome (elem_size TCapacity : Nat) where
  ret : Int
  buf : array_buffer elem_size TCapacity
  copied : Bool
  deriving DecidableEq

variable {sz cap : Nat}

/-- Constructor `array_buffer()`: cursors `0`, `m_min_free = TCapacity / 4`,
then `memset(&m_buf[0], 0, TCapacity * sizeof(TStorageDataType))` over the
uninitialised storage `raw`. -/
def array_buffer.construct (sz cap : Nat) (raw : List Nat) : array_buffer sz cap :=
  { m_buf := memset raw 0 0 (cap * sz)
    m_read_index := 0
    m_write_index := 0
    m_min_free := ((cap / 4 : Nat) : Int) }

/-- Method `capacity()`: `m_buf.size()`, the element count of the `std::array`. -/
def array_buffer.capacity (_b : array_buffer sz cap) : Int := (cap : Int)

/-- Method `size()`: `m_write_index - m_read_index`. -/
def array_buffer.size (b : array_buffer sz cap) : Int :=
  wrap_int (b.m_write_index - b.m_read_index)

/-- Method `free_size()`: `capacity() - m_write_index`. -/
def array_buffer.free_size (b : array_buffer sz cap) : Int :=
  wrap_int (b.capacity - b.m_write_index)

/-- Method `set_min_free(n_elem)`. -/
def array_buffer.set_min_free (b : array_buffer sz cap) (n_elem : Int) : outcome sz cap :=
  if n_elem > ((cap / 2 : Nat) : Int) then
    { ret := ((cap / 2 : Nat) : Int)
      buf := { b with m_min_free := ((cap / 2 : Nat) : Int) }
      copied := false }
  else
    { ret := n_elem
      buf := { b with m_min_free := n_elem }
      copied := false }

/-- Private method `relocate()`.  The second component tells whether the copy
branch ran.  `&m_buf[i]` is the byte offset `i * elem_size`; the counts passed
to `memcpy` and `memset` are `size()` and `free_size()`, as in the source. -/
def array_buffer.relocate (b : array_buffer sz cap) : array_buffer sz cap × Bool :=
  if b.free_size > b.capacity / 2 then
    (b, false)
  else
    let b1 : array_buffer sz cap :=
      { b with m_buf := memcpy b.m_buf 0 (b.m_read_index.toNat * sz) (to_size_t b.size) }
    let b2 : array_buffer sz cap :=
      { b1 with m_write_index := wrap_int (b1.m_write_index - b1.m_read_index) }
    let b3 : array_buffer sz cap := { b2 with m_read_index := 0 }
    ({ b3 with m_buf := memset b3.m_buf (b3.m_write_index.toNat * sz) 0 (to_size_t b3.free_size) },
      true)

/-- Statement `m_read_index += n_elem` of `consume`. -/
def array_buffer.advance_read (b : array_buffer sz cap) (n_elem : Int) : array_buffer sz cap :=
  { b with m_read_index := wrap_int (b.m_read_index + n_elem) }

/-- Statement `m_write_index += n_elem` of `commit`. -/
def array_buffer.advance_write (b : array_buffer sz cap) (n_elem : Int) : array_buffer sz cap :=
  { b with m_write_index := wrap_int (b.m_write_index + n_elem) }

/-- Method `consume(n_elem)`. -/
def array_buffer.consume (b : array_buffer sz cap) (n_elem : Int) : outcome sz cap :=
  if wrap_int (b.m_read_index + n_elem) > b.capacity then
    { ret := -1, buf := b, copied := false }
  else if wrap_int (b.m_read_index + n_elem) > b.m_write_index then
    { ret := -1, buf := b, copied := false }
  else
    let b1 : array_buffer sz cap := b.advance_read n_elem
    if b1.free_size < b1.m_min_free then
      { ret := n_elem, buf := b1.relocate.1, copied := b1.relocate.2 }
    else
      { ret := n_elem, buf := b1, copied := false }

/-- Method `commit(n_elem)`. -/
def array_buffer.commit (b : array_buffer sz cap) (n_elem : Int) : outcome sz cap :=
  if n_elem > b.free_size then
    { ret := -1, buf := b, copied := false }
  else
    let b1 : array_buffer sz cap := b.advance_write n_elem
    if b1.free_size < b1.m_min_free then
      { ret := n_elem, buf := b1.relocate.1, copied := b1.relocate.2 }
    else
      { ret := n_elem, buf := b1, copied := false }

/-- Bytes of the element at offset `i` of the storage. -/
def array_buffer.elem_at (b : array_buffer sz cap) (i : Nat) : List Nat :=
  (b.m_buf.drop (i * sz)).take sz

/-- Bytes of the zero element. -/
def zero_elem (sz : Nat) : List Nat := List.replicate sz 0

/-- The readable region: the bytes of the `size()` elements that start at
`read_ptr()`, which is `&m_buf[m_read_index]`. -/
def array_buffer.readable (b : array_buffer sz cap) : List Nat :=
  (b.m_buf.drop (b.m_read_index.toNat * sz)).take (b.size.toNat * sz)

/-- The cursor invariant `0 ≤ read_index ≤ write_index ≤ capacity`. -/
def array_buffer.cursors_ok (b : array_buffer sz cap) : Prop :=
  0 ≤ b.m_read_index ∧ b.m_read_index ≤ b.m_write_index ∧ b.m_write_index ≤ b.capacity

instance (b : array_buffer sz cap) : Decidable b.cursors_ok := by
  unfold array_buffer.cursors_ok; infer_instance

/-- The storage holds exactly `TCapacity` elements of `elem_size` bytes. -/
def array_buffer.storage_ok (b : array_buffer sz cap) : Prop :=
  b.m_buf.length = cap * sz

instance (b : array_buffer sz cap) : Decidable b.storage_ok := by
  unfold array_buffer.storage_ok; infer_instance

/-- A call of one of the three public mutators. -/
inductive call where
  | set_min_free (n : Int)
  | commit (n : Int)
  | consume (n : Int)
  deriving DecidableEq

/-- The object after one mutator call. -/
def array_buffer.step (b : array_buffer sz cap) : call → array_buffer sz cap
  | .set_min_free n => (b.set_min_free n).buf
  | .commit n => (b.commit n).buf
  | .consume n => (b.consume n).buf

/-- The object after a sequence of mutator calls, first call first. -/
def array_buffer.run (b : array_buffer sz cap) : List call → array_buffer sz cap
  | [] => b
  | c :: cs => (b.step c).run cs

/-- A mutator call whose count is non-negative and, for `consume`, whose sum
`m_read_index + n_elem` does not exceed `INT_MAX`.  `set_min_free` takes any
argument. -/
def array_buffer.arg_in_range (b : array_buffer sz cap) : call → Prop
  | .set_min_free _ => True
  | .commit n => 0 ≤ n
  | .consume n => 0 ≤ n ∧ b.m_read_index + n ≤ INT_MAX

instance (b : array_buffer sz cap) (c : call) : Decidable (b.arg_in_range c) := by
  cases c <;> unfold array_buffer.arg_in_range <;> infer_instance

/-- Every call of the sequence is `arg_in_range` in the state it is made in. -/
def array_buffer.args_in_range (b : array_buffer sz cap) : List call → Prop
  | [] => True
  | c :: cs => b.arg_in_range c ∧ (b.step c).args_in_range cs

instance array_buffer.decide_args_in_range :
    (b : array_buffer sz cap) → (cs : List call) → Decidable (b.args_in_range cs)
  | _, [] => isTrue trivial
  | b, c :: cs =>
    haveI := array_buffer.decide_args_in_range (b.step c) cs
    inferInstanceAs (Decidable (b.arg_in_range c ∧ (b.step c).args_in_range cs))

/-- The guard of `commit` that leads to `return -1`: committing more elements than
there is free. -/
def array_buffer.commit_rejected (b : array_buffer sz cap) (n_elem : Int) : Prop :=
  n_elem > b.free_size

/-- The two guards of `consume` that lead to `return -1`. -/
def array_buffer.consume_rejected (b : array_buffer sz cap) (n_elem : Int) : Prop :=
  wrap_int (b.m_read_index + n_elem) > b.capacity ∨
    wrap_int (b.m_read_index + n_elem) > b.m_write_index

instance (b : array_buffer sz cap) (n : Int) : Decidable (b.commit_rejected n) := by
  unfold array_buffer.commit_rejected; infer_instance

instance (b : array_buffer sz cap) (n : Int) : Decidable (b.consume_rejected n) := by
  unfold array_buffer.consume_rejected; infer_instance

/-! ## Concrete states used by the evaluations -/

/-- Write of the bytes `bytes` into the byte store at byte offset `off`, as done by a producer
through `raw_ptr()` or `write_ptr()`. -/
def write_bytes (mem : List Nat) (off : Nat) : List Nat → List Nat
  | [] => mem
  | x :: xs => write_bytes (mem.set off x) (off + 1) xs

/-- Assignment `raw_ptr()[i] = v`, where `bytes` is the object representation of `v`. -/
def array_buffer.store_elem (b : array_buffer sz cap) (i : Nat) (bytes : List Nat) :
    array_buffer sz cap :=
  { b with m_buf := write_bytes b.m_buf (i * sz) bytes }

/-- Object representation of a small non-negative value `v < 256` in a little-endian integer
type of `sz` bytes. -/
def small_value (sz v : Nat) : List Nat :=
  match sz with
  | 0 => []
  | k + 1 => v :: List.replicate k 0

/-- The loop `for (i = 0; i < n; ++i) raw_ptr()[i] = i` of the tests, generalised to start at
element offset `start` with value `first`. -/
def array_buffer.store_ascending (b : array_buffer sz cap) (start first : Nat) :
    Nat → array_buffer sz cap
  | 0 => b
  | n + 1 => (b.store_elem start (small_value sz first)).store_ascending (start + 1) (first + 1) n

/-- State of `testCommitAndConsume` after `set_min_free(24)`, storing `0..41` and `commit(42)`
on an `array_buffer<uint8_t, 64>`. -/
def test_buffer_committed : array_buffer 1 64 :=
  ((((array_buffer.construct 1 64 (List.replicate 64 0)).set_min_free 24).buf.store_ascending
    0 0 42).commit 42).buf

/-- An `array_buffer<int32_t, 8>` after `set_min_free(4)`, storing `1..6` at offsets `0..5`
and `commit(6)`. -/
def wide_buffer_committed : array_buffer 4 8 :=
  ((((array_buffer.construct 4 8 (List.replicate 32 0)).set_min_free 4).buf.store_ascending
    0 1 6).commit 6).buf

/-- An `array_buffer<int32_t, 8>` after `set_min_free(4)`, storing `1..4` at offsets `0..3`,
`commit(4)`, `consume(2)`, and storing `5, 6` through `write_ptr()` at offsets `4, 5`. -/
def wide_buffer_before_commit : array_buffer 4 8 :=
  ((((((array_buffer.construct 4 8 (List.replicate 32 0)).set_min_free 4).buf.store_ascending
    0 1 4).commit 4).buf.consume 2).buf).store_ascending 4 5 2

/-- A reachable `array_buffer<uint8_t, 64>` with `m_read_index = 1`, `m_write_index = 10`:
fresh, then `commit(10)` and `consume(1)`. -/
def small_buffer_read_one : array_buffer 1 64 :=
  (array_buffer.construct 1 64 (List.replicate 64 0)).run [call.commit 10, call.consume 1]

/-! ## Views and call predicates -/

/-- Method `read_ptr()`: `&m_buf[m_read_index]`, given as the element offset from the start
of the storage. -/
def array_buffer.read_ptr (b : array_buffer sz cap) : Int := b.m_read_index

/-- Method `write_ptr()`: `&m_buf[m_write_index]`, as an element offset. -/
def array_buffer.write_ptr (b : array_buffer sz cap) : Int := b.m_write_index

/-- Method `raw_ptr()`: `&m_buf[0]`, as an element offset. -/
def array_buffer.raw_ptr (_b : array_buffer sz cap) : Int := 0

/-- Method `const_raw_ptr()`: `&m_buf[0]`, as an element offset. -/
def array_buffer.const_raw_ptr (_b : array_buffer sz cap) : Int := 0

/-- A call that, when it is a `set_min_free`, has a non-negative argument. -/
def call.min_free_arg_nonneg : call → Prop
  | .set_min_free n => 0 ≤ n
  | .commit _ => True
  | .consume _ => True

instance (c : call) : Decidable c.min_free_arg_nonneg := by
  cases c <;> unfold call.min_free_arg_nonneg <;> infer_instance

/-! ## The test scenario `testCommitAndConsume` -/

/-- Test `testCommitAndConsume`, first stage: an `array_buffer<uint8_t, 64>` constructed over
the uninitialised storage `raw`, then `set_min_free(24)`, the values `0..41` stored at offsets
`0..41` through `raw_ptr()`, and `commit(42)`. -/
def scenario_committed (raw : List Nat) : array_buffer 1 64 :=
  ((((array_buffer.construct 1 64 raw).set_min_free 24).buf.store_ascending 0 0 42).commit 42).buf

/-- Second stage of the test: the object after `consume(5)`. -/
def scenario_consumed_5 (raw : List Nat) : array_buffer 1 64 :=
  ((scenario_committed raw).consume 5).buf

/-- Third stage of the test: the object after the further `consume(13)`. -/
def scenario_consumed_13 (raw : List Nat) : array_buffer 1 64 :=
  ((scenario_consumed_5 raw).consume 13).buf

/-- Fourth stage of the test: the object after the further `consume(19)`. -/
def scenario_consumed_19 (raw : List Nat) : array_buffer 1 64 :=
  ((scenario_consumed_13 raw).consume 19).buf

/-! ## The diagnostic rendering `to_stream` -/

/-- Element type `TStorageDataType` as far as `to_stream` depends on it: an integral type
(`std::is_integral_v`) with its signedness, or a floating-point type, whose `std::to_string`
text is left abstract as a function of the object representation. -/
inductive elem_kind where
  | integral (is_signed : Bool)
  | floating (to_string : List Nat → String)

/-- Unsigned value of a little-endian object representation. -/
def le_value : List Nat → Nat
  | [] => 0
  | x :: xs => x + 256 * le_value xs

/-- Value of an integral element from its object representation: little-endian, two's
complement when the type is signed. -/
def integral_value (is_signed : Bool) (bytes : List Nat) : Int :=
  if is_signed = true ∧ 2 ^ (8 * bytes.length - 1) ≤ le_value bytes then
    (le_value bytes : Int) - 2 ^ (8 * bytes.length)
  else
    (le_value bytes : Int)

/-- Conversion `static_cast<std::uint64_t>(v)`. -/
def to_uint64 (v : Int) : Nat := (v % 18446744073709551616).toNat

/-- Stream insertion of `text` under `std::setw(w) << std::setfill('0')`: a shorter text is
padded on the left with `'0'`, a longer text is inserted whole. -/
def setw_fill (w : Nat) (text : String) : String :=
  String.mk (List.replicate (w - text.length) '0') ++ text

/-- Text of `o << std::setw(2 * sizeof(T)) << std::setfill('0') << std::hex
<< static_cast<std::uint64_t>(v)` for an element of `sz` bytes holding `v`. -/
def hex_cell (sz : Nat) (v : Int) : String :=
  setw_fill (2 * sz) (String.mk (Nat.toDigits 16 (to_uint64 v)))

/-- Value text that `to_stream` emits for one element: the integral branch or the
`std::to_string` branch. -/
def render_elem (kind : elem_kind) (sz : Nat) (bytes : List Nat) : String :=
  match kind with
  | .integral s => hex_cell sz (integral_value s bytes)
  | .floating f => setw_fill (2 * sz) (f bytes)

/-- Marker that `to_stream` emits after the value of slot `i`.  The locals are
`write_index = TCapacity - free_size()` and `read_index = write_index - size()`. -/
def array_buffer.to_stream_marker (b : array_buffer sz cap) (i : Int) : String :=
  let write_index := wrap_int ((cap : Int) - b.free_size)
  let read_index := wrap_int (write_index - b.size)
  if i = read_index ∧ i = write_index then "<-rw "
  else if i = read_index then "<-r  "
  else if i = write_index then "<-w  "
  else "     "

/-- One iteration of the loop of `to_stream`: value, marker, and `BUFFERLIB_NEWLINE` when
`(i + 1) % 8 == 0 && i > 0`.  `newline` is the text of the macro `BUFFERLIB_NEWLINE`. -/
def array_buffer.to_stream_slot (b : array_buffer sz cap) (newline : String) (kind : elem_kind)
    (i : Nat) : String :=
  render_elem kind sz (b.elem_at i) ++ b.to_stream_marker (i : Int) ++
    (if (i + 1) % 8 = 0 ∧ i > 0 then newline else "")

/-- Method `to_stream(o)`: the text appended to the stream, for `i = 0 .. TCapacity - 1` in
order, and the object after the call (the method is `const`). -/
def array_buffer.to_stream (b : array_buffer sz cap) (newline : String) (kind : elem_kind) :
    String × array_buffer sz cap :=
  (String.join ((List.range cap).map (b.to_stream_slot newline kind)), b)

/-- Marker of slot `i` in the words of the specification, for cursors `r` and `w`. -/
def spec_marker (r w : Int) (i : Nat) : String :=
  if (i : Int) = r ∧ (i : Int) = w then "<-rw "
  else if (i : Int) = r then "<-r  "
  else if (i : Int) = w then "<-w  "
  else "     "

/-- Lower-case hexadecimal digit for `d < 16`. -/
def spec_digit (d : Nat) : Char :=
  ("0123456789abcdef".toList).getD d '0'

/-- Hexadecimal text of fixed width: the `width` low hexadecimal digits of `v`, most
significant first, so that a small value shows leading zeros. -/
def spec_hex : Nat → Nat → List Char
  | 0, _ => []
  | w + 1, v => spec_hex w (v / 16) ++ [spec_digit (v % 16)]

/-- Non-negative value held by a slot: its bytes are the base-256 digits, least significant
first. -/
def spec_value (bytes : List Nat) : Nat :=
  bytes.foldr (fun x acc => x + 256 * acc) 0

/-- Rendering in the words of the specification, for elements of `sz` bytes holding
non-negative integers, of the `n` slots that start with slot `i`, where `mem` is the storage
from slot `i` on: for each slot in offset order its value in hexadecimal of fixed width
`2 * sz`, then the marker, then a line break after every 8th slot. -/
def spec_dump_from (newline : String) (sz : Nat) (r w : Int) : Nat → Nat → List Nat → String
  | _, 0, _ => ""
  | i, n + 1, mem =>
    String.mk (spec_hex (2 * sz) (spec_value (mem.take sz))) ++ spec_marker r w i ++
      (if (i + 1) % 8 = 0 then newline else "") ++
      spec_dump_from newline sz r w (i + 1) n (mem.drop sz)

/-- Rendering of the whole buffer in the words of the specification. -/
def spec_dump (newline : String) (b : array_buffer sz cap) : String :=
  spec_dump_from newline sz b.m_read_index b.m_write_index 0 cap b.m_buf

/-- Every slot holds a value that the element kind represents as a non-negative integer: any
value of an unsigned integral type, a value below `2 ^ (8 * sz - 1)` of a signed one. -/
def array_buffer.values_nonneg (b : array_buffer sz cap) : elem_kind → Prop
  | .integral false => True
  | .integral true =>
    ∀ i : Nat, i < cap → spec_value ((b.m_buf.drop (i * sz)).take sz) < 2 ^ (8 * sz - 1)
  | .floating _ => False

/-- The memory accesses of the copy branch of `relocate` stay inside `m_buf`:
`memcpy(&m_buf[0], &m_buf[m_read_index], size())` reads the bytes from offset
`m_read_index * sizeof(T)` and `memset(&m_buf[m_write_index], 0, free_size())` writes from the
new `m_write_index * sizeof(T)`, with non-negative counts that end within the storage. -/
def array_buffer.relocate_in_bounds (b : array_buffer sz cap) : Prop :=
  0 ≤ b.m_read_index ∧ 0 ≤ b.size ∧
  b.m_read_index * (sz : Int) + b.size ≤ (b.m_buf.length : Int) ∧
  0 ≤ wrap_int (b.m_write_index - b.m_read_index) ∧
  0 ≤ wrap_int (b.capacity - wrap_int (b.m_write_index - b.m_read_index)) ∧
  wrap_int (b.m_write_index - b.m_read_index) * (sz : Int)
    + wrap_int (b.capacity - wrap_int (b.m_write_index - b.m_read_index))
    ≤ (b.m_buf.length : Int)

instance (b : array_buffer sz cap) : Decidable b.relocate_in_bounds := by
  unfold array_buffer.relocate_in_bounds; infer_instance

set_option maxRecDepth 100000

/-! ## Arithmetic and memory lemmas -/

theorem wrap_int_of_range (x : Int) (h1 : -2147483648 ≤ x) (h2 : x ≤ 2147483647) :
    wrap_int x = x := by
  unfold wrap_int; omega

theorem to_size_t_of_nonneg (x : Int) (h1 : 0 ≤ x) (h2 : x ≤ 2147483647) :
    to_size_t x = x.toNat := by
  unfold to_size_t
  congr 1
  omega

theorem memcpy_length (mem : List Nat) (d s n : Nat) :
    (memcpy mem d s n).length = mem.length := by
  induction n generalizing mem d s with
  | zero => rfl
  | succ n ih => simp [memcpy, ih]

theorem memset_length (mem : List Nat) (d v n : Nat) :
    (memset mem d v n).length = mem.length := by
  induction n generalizing mem d with
  | zero => rfl
  | succ n ih => simp [memset, ih]

theorem memset_getElem? (mem : List Nat) (d v n j : Nat) :
    (memset mem d v n)[j]? =
      if d ≤ j ∧ j < d + n ∧ j < mem.length then some v else mem[j]? := by
  induction n generalizing mem d with
  | zero =>
    have h : ¬ (d ≤ j ∧ j < d + 0 ∧ j < mem.length) := by omega
    simp only [memset, h, if_false]
  | succ n ih =>
    simp only [memset, ih, List.length_set, List.getElem?_set]
    by_cases h1 : d = j
    · subst h1
      by_cases h2 : d < mem.length
      · simp [h2]
      · simp [h2]; omega
    · by_cases h2 : d + 1 ≤ j ∧ j < d + 1 + n ∧ j < mem.length
      · have : d ≤ j ∧ j < d + (n + 1) ∧ j < mem.length := by omega
        simp [h2, this]
      · have : ¬ (d ≤ j ∧ j < d + (n + 1) ∧ j < mem.length) := by omega
        simp [h1, h2, this]

theorem memcpy_getElem? (mem : List Nat) (d s n j : Nat) (hds : d ≤ s) :
    (memcpy mem d s n)[j]? =
      if d ≤ j ∧ j < d + n ∧ j < mem.length then some (mem.getD (s + (j - d)) 0)
      else mem[j]? := by
  induction n generalizing mem d s with
  | zero =>
    have h : ¬ (d ≤ j ∧ j < d + 0 ∧ j < mem.length) := by omega
    simp only [memcpy, h, if_false]
  | succ n ih =>
    simp only [memcpy]
    rw [ih _ _ _ (by omega)]
    simp only [List.length_set, List.getD_eq_getElem?_getD, List.getElem?_set]
    by_cases h1 : d = j
    · subst h1
      by_cases h2 : d < mem.length
      · simp [h2]
      · simp [h2]; omega
    · by_cases h2 : d + 1 ≤ j ∧ j < d + 1 + n ∧ j < mem.length
      · have h3 : d ≤ j ∧ j < d + (n + 1) ∧ j < mem.length := by omega
        have h4 : ¬ (d = s + (j - d)) := by omega
        have h5 : s + 1 + (j - (d + 1)) = s + (j - d) := by omega
        simp [h2, h3, h4, h5]
      · have h3 : ¬ (d ≤ j ∧ j < d + (n + 1) ∧ j < mem.length) := by omega
        simp [h1, h2, h3]

theorem compaction_bytes (mem : List Nat) (r n : Nat) (h : r + n ≤ mem.length) :
    memset (memcpy mem 0 r n) n 0 (mem.length - n)
      = (mem.drop r).take n ++ List.replicate (mem.length - n) 0 := by
  apply List.ext_getElem?
  intro j
  rw [memset_getElem?, memcpy_getElem? _ _ _ _ _ (Nat.zero_le r), memcpy_length]
  have hlen : ((mem.drop r).take n).length = n := by
    simp only [List.length_take, List.length_drop]; omega
  by_cases hj : j < n
  · have h1 : ¬ (n ≤ j ∧ j < n + (mem.length - n) ∧ j < mem.length) := by omega
    have h2 : 0 ≤ j ∧ j < 0 + n ∧ j < mem.length := by omega
    have h3 : r + j < mem.length := by omega
    rw [if_neg h1, if_pos h2, List.getElem?_append_left (by omega),
      List.getElem?_take_of_lt hj, List.getElem?_drop]
    simp [List.getElem?_eq_getElem h3]
  · by_cases hj2 : j < mem.length
    · have h1 : n ≤ j ∧ j < n + (mem.length - n) ∧ j < mem.length := by omega
      rw [if_pos h1, List.getElem?_append_right (by omega), hlen]
      have h4 : j - n < mem.length - n := by omega
      simp [List.getElem?_replicate, h4]
    · have h1 : ¬ (n ≤ j ∧ j < n + (mem.length - n) ∧ j < mem.length) := by omega
      have h2 : ¬ (0 ≤ j ∧ j < 0 + n ∧ j < mem.length) := by omega
      rw [if_neg h1, if_neg h2, List.getElem?_append_right (by omega), hlen]
      have h4 : ¬ (j - n < mem.length - n) := by omega
      simp [List.getElem?_replicate, h4]
      omega

/-- On a one-byte buffer with valid cursors the copy branch of `relocate` moves
the live bytes to the front and fills the rest with zero. -/
theorem relocate_one_byte (b : array_buffer 1 cap) (hc : b.cursors_ok) (hs : b.storage_ok)
    (hcap : (cap : Int) ≤ INT_MAX) (hf : ¬ b.free_size > b.capacity / 2) :
    b.relocate =
      ({ m_buf := (b.m_buf.drop b.m_read_index.toNat).take (b.m_write_index - b.m_read_index).toNat
                    ++ List.replicate (cap - (b.m_write_index - b.m_read_index).toNat) 0
         m_read_index := 0
         m_write_index := b.m_write_index - b.m_read_index
         m_min_free := b.m_min_free }, true) := by
  obtain ⟨h0, h1, h2⟩ := hc
  unfold array_buffer.storage_ok at hs
  unfold array_buffer.capacity at h2
  unfold INT_MAX at hcap
  unfold array_buffer.relocate
  rw [if_neg hf]
  have hw : wrap_int (b.m_write_index - b.m_read_index) = b.m_write_index - b.m_read_index :=
    wrap_int_of_range _ (by omega) (by omega)
  have hfs : wrap_int ((cap : Int) - (b.m_write_index - b.m_read_index))
      = (cap : Int) - (b.m_write_index - b.m_read_index) :=
    wrap_int_of_range _ (by omega) (by omega)
  simp only [array_buffer.size, array_buffer.free_size, array_buffer.capacity, hw, hfs, Nat.mul_one]
  rw [to_size_t_of_nonneg _ (by omega) (by omega), to_size_t_of_nonneg _ (by omega) (by omega)]
  have e1 : ((cap : Int) - (b.m_write_index - b.m_read_index)).toNat
      = b.m_buf.length - (b.m_write_index - b.m_read_index).toNat := by omega
  have e2 : cap - (b.m_write_index - b.m_read_index).toNat
      = b.m_buf.length - (b.m_write_index - b.m_read_index).toNat := by omega
  rw [e1, e2, compaction_bytes _ _ _ (by omega)]

/-! ## Cursor invariant -/

theorem relocate_cursors_ok (b : array_buffer sz cap) (hc : b.cursors_ok)
    (hcap : (cap : Int) ≤ INT_MAX) : b.relocate.1.cursors_ok := by
  obtain ⟨h0, h1, h2⟩ := hc
  unfold array_buffer.capacity at h2
  unfold INT_MAX at hcap
  unfold array_buffer.relocate
  split
  · exact ⟨h0, h1, h2⟩
  · have hw : wrap_int (b.m_write_index - b.m_read_index) = b.m_write_index - b.m_read_index :=
      wrap_int_of_range _ (by omega) (by omega)
    simp only [array_buffer.cursors_ok, array_buffer.capacity, hw]
    omega

theorem set_min_free_cursors_ok (b : array_buffer sz cap) (n : Int) (hc : b.cursors_ok) :
    (b.set_min_free n).buf.cursors_ok := by
  unfold array_buffer.set_min_free
  split <;> exact hc

theorem commit_cursors_ok (b : array_buffer sz cap) (n : Int) (hc : b.cursors_ok)
    (hcap : (cap : Int) ≤ INT_MAX) (hn : 0 ≤ n) : (b.commit n).buf.cursors_ok := by
  have hc0 := hc
  obtain ⟨h0, h1, h2⟩ := hc
  unfold array_buffer.capacity at h2
  have hcap0 := hcap
  unfold INT_MAX at hcap
  have hfs : b.free_size = (cap : Int) - b.m_write_index := by
    unfold array_buffer.free_size array_buffer.capacity
    exact wrap_int_of_range _ (by omega) (by omega)
  unfold array_buffer.commit array_buffer.advance_write
  split
  · exact hc0
  · rename_i hrej
    rw [hfs] at hrej
    have hw : wrap_int (b.m_write_index + n) = b.m_write_index + n :=
      wrap_int_of_range _ (by omega) (by omega)
    have hc1 : ({ b with m_write_index := wrap_int (b.m_write_index + n) } :
        array_buffer sz cap).cursors_ok := by
      simp only [array_buffer.cursors_ok, array_buffer.capacity, hw]
      omega
    dsimp only
    split
    · exact relocate_cursors_ok _ hc1 hcap0
    · exact hc1

theorem consume_cursors_ok (b : array_buffer sz cap) (n : Int) (hc : b.cursors_ok)
    (hn : 0 ≤ n) (hsum : b.m_read_index + n ≤ INT_MAX) (hcap : (cap : Int) ≤ INT_MAX) :
    (b.consume n).buf.cursors_ok := by
  have hc0 := hc
  obtain ⟨h0, h1, h2⟩ := hc
  unfold array_buffer.capacity at h2
  have hcap0 := hcap
  unfold INT_MAX at hcap hsum
  have hr : wrap_int (b.m_read_index + n) = b.m_read_index + n :=
    wrap_int_of_range _ (by omega) (by omega)
  unfold array_buffer.consume array_buffer.advance_read
  rw [hr]
  split
  · exact hc0
  · split
    · exact hc0
    · rename_i hrej1 hrej2
      have hc1 : ({ b with m_read_index := b.m_read_index + n } :
          array_buffer sz cap).cursors_ok := by
        simp only [array_buffer.cursors_ok, array_buffer.capacity]
        omega
      dsimp only
      split
      · exact relocate_cursors_ok _ hc1 hcap0
      · exact hc1

theorem step_cursors_ok (b : array_buffer sz cap) (c : call) (hc : b.cursors_ok)
    (hcap : (cap : Int) ≤ INT_MAX) (ha : b.arg_in_range c) : (b.step c).cursors_ok := by
  cases c with
  | set_min_free n => exact set_min_free_cursors_ok b n hc
  | commit n => exact commit_cursors_ok b n hc hcap ha
  | consume n => exact consume_cursors_ok b n hc ha.1 ha.2 hcap

theorem run_cursors_ok (b : array_buffer sz cap) (cs : List call) (hc : b.cursors_ok)
    (hcap : (cap : Int) ≤ INT_MAX) (ha : b.args_in_range cs) : (b.run cs).cursors_ok := by
  induction cs generalizing b with
  | nil => exact hc
  | cons c cs ih =>
    exact ih (b.step c) (step_cursors_ok b c hc hcap ha.1) ha.2

theorem conservation_of_cursors_ok (b : array_buffer sz cap) (hc : b.cursors_ok)
    (hcap : (cap : Int) ≤ INT_MAX) :
    b.m_read_index + b.size + b.free_size = b.capacity := by
  obtain ⟨h0, h1, h2⟩ := hc
  unfold array_buffer.capacity at h2
  unfold INT_MAX at hcap
  unfold array_buffer.size array_buffer.free_size array_buffer.capacity
  rw [wrap_int_of_range _ (by omega) (by omega), wrap_int_of_range _ (by omega) (by omega)]
  omega

theorem construct_cursors_ok (sz cap : Nat) (raw : List Nat) :
    (array_buffer.construct sz cap raw).cursors_ok := by
  simp [array_buffer.cursors_ok, array_buffer.construct, array_buffer.capacity]

/-- C1 (as stated, refuted): on a fresh 64-byte buffer the single call `consume(-1)` is accepted
and leaves `m_read_index = -1`, so `0 ≤ read_index` fails after a call sequence with an
arbitrary `int` argument. -/
theorem c1_counterexample :
    ((array_buffer.construct 1 64 (List.replicate 64 0)).consume (-1)).ret = -1 ∧
    ((array_buffer.construct 1 64 (List.replicate 64 0)).run [call.consume (-1)]).m_read_index = -1 ∧
    ¬ ((array_buffer.construct 1 64 (List.replicate 64 0)).run [call.consume (-1)]).cursors_ok := by
  decide

/-- C1 (amended): starting from a freshly constructed buffer, after every finite sequence of
`set_min_free`, `commit` and `consume` calls in which every `commit`/`consume` count is
non-negative and no `consume` sum `read_index + n` exceeds `INT_MAX`, the cursors satisfy
`0 ≤ read_index ≤ write_index ≤ capacity` and `read_index + size() + free_size() = capacity`. -/
theorem c1_invariant_in_range (sz cap : Nat) (raw : List Nat) (cs : List call)
    (hcap : (cap : Int) ≤ INT_MAX)
    (ha : (array_buffer.construct sz cap raw).args_in_range cs) :
    ((array_buffer.construct sz cap raw).run cs).cursors_ok ∧
    ((array_buffer.construct sz cap raw).run cs).m_read_index
      + ((array_buffer.construct sz cap raw).run cs).size
      + ((array_buffer.construct sz cap raw).run cs).free_size
      = ((array_buffer.construct sz cap raw).run cs).capacity := by
  have h := run_cursors_ok _ cs (construct_cursors_ok sz cap raw) hcap ha
  exact ⟨h, conservation_of_cursors_ok _ h hcap⟩

/-- Witness of C1 (amended): a five-call sequence on a fresh 64-byte buffer, with two
compactions on the way. -/
theorem c1_invariant_in_range_witness :
    ((64 : Nat) : Int) ≤ INT_MAX ∧
    (array_buffer.construct 1 64 (List.replicate 64 0)).args_in_range
      [call.set_min_free 24, call.commit 42, call.consume 5, call.commit 30, call.consume 40] ∧
    ((array_buffer.construct 1 64 (List.replicate 64 0)).run
      [call.set_min_free 24, call.commit 42, call.consume 5, call.commit 30, call.consume 40]).cursors_ok :=
  ⟨by decide, by decide,
    (c1_invariant_in_range 1 64 (List.replicate 64 0)
      [call.set_min_free 24, call.commit 42, call.consume 5, call.commit 30, call.consume 40]
      (by decide) (by decide)).1⟩

/-! ## Readable region of one-byte buffers: `consume` and `commit` -/

theorem readable_one_byte (b : array_buffer 1 cap) (hc : b.cursors_ok)
    (hcap : (cap : Int) ≤ INT_MAX) :
    b.readable = (b.m_buf.drop b.m_read_index.toNat).take (b.m_write_index - b.m_read_index).toNat ∧
    b.size = b.m_write_index - b.m_read_index := by
  obtain ⟨h0, h1, h2⟩ := hc
  unfold array_buffer.capacity at h2
  unfold INT_MAX at hcap
  have hw : wrap_int (b.m_write_index - b.m_read_index) = b.m_write_index - b.m_read_index :=
    wrap_int_of_range _ (by omega) (by omega)
  simp only [array_buffer.readable, array_buffer.size, hw, Nat.mul_one, and_self]

/-- On a one-byte buffer with valid cursors `relocate`, whichever branch it takes, keeps the
readable region, `size()`, the cursor invariant and the storage length. -/
theorem relocate_keeps_readable (b : array_buffer 1 cap) (hc : b.cursors_ok) (hs : b.storage_ok)
    (hcap : (cap : Int) ≤ INT_MAX) :
    b.relocate.1.readable = b.readable ∧ b.relocate.1.size = b.size := by
  by_cases hf : b.free_size > b.capacity / 2
  · have : b.relocate = (b, false) := by
      unfold array_buffer.relocate
      rw [if_pos hf]
    rw [this]
    exact ⟨rfl, rfl⟩
  · have hc2 := relocate_cursors_ok b hc hcap
    obtain ⟨hr2, hs2⟩ := readable_one_byte _ hc2 hcap
    obtain ⟨hr1, hs1⟩ := readable_one_byte b hc hcap
    rw [hr2, hs2, hr1, hs1, relocate_one_byte b hc hs hcap hf]
    obtain ⟨h0, h1, h2⟩ := hc
    unfold array_buffer.capacity at h2
    unfold array_buffer.storage_ok at hs
    have hlen : ((b.m_buf.drop b.m_read_index.toNat).take
        (b.m_write_index - b.m_read_index).toNat).length
          = (b.m_write_index - b.m_read_index).toNat := by
      simp only [List.length_take, List.length_drop]; omega
    constructor
    · simp only [Int.toNat_zero, List.drop_zero, sub_zero]
      rw [List.take_append_of_le_length (by omega), List.take_of_length_le (by omega)]
    · simp

/-- C2: on a one-byte buffer with valid cursors, `consume(n)` with `0 ≤ n ≤ size()` returns `n`,
the readable region afterwards is the old one without its first `n` elements, and `size()`
drops by exactly `n`, with or without compaction. -/
theorem c2_consume_readable (b : array_buffer 1 cap) (n : Int)
    (hcap : (cap : Int) ≤ INT_MAX) (hs : b.storage_ok) (hc : b.cursors_ok)
    (h0 : 0 ≤ n) (hn : n ≤ b.size) :
    (b.consume n).ret = n ∧
    (b.consume n).buf.readable = b.readable.drop n.toNat ∧
    (b.consume n).buf.size = b.size - n := by
  obtain ⟨hr0, hs0⟩ := readable_one_byte b hc hcap
  have hc0 := hc
  obtain ⟨c0, c1, c2⟩ := hc
  unfold array_buffer.capacity at c2
  have hcap0 := hcap
  unfold INT_MAX at hcap
  rw [hs0] at hn
  have hr : wrap_int (b.m_read_index + n) = b.m_read_index + n :=
    wrap_int_of_range _ (by omega) (by omega)
  have hc1 : ({ b with m_read_index := b.m_read_index + n } : array_buffer 1 cap).cursors_ok := by
    simp only [array_buffer.cursors_ok, array_buffer.capacity]
    omega
  have hs1 : ({ b with m_read_index := b.m_read_index + n } : array_buffer 1 cap).storage_ok := hs
  obtain ⟨hr1, hz1⟩ := readable_one_byte _ hc1 hcap0
  have key : ({ b with m_read_index := b.m_read_index + n } : array_buffer 1 cap).readable
      = b.readable.drop n.toNat := by
    rw [hr1, hr0, List.drop_take, List.drop_drop]
    congr 2 <;> dsimp only <;> omega
  have keysz : ({ b with m_read_index := b.m_read_index + n } : array_buffer 1 cap).size
      = b.size - n := by
    rw [hz1, hs0]; dsimp only; omega
  unfold array_buffer.consume array_buffer.advance_read
  rw [hr, if_neg (by unfold array_buffer.capacity; omega), if_neg (by omega)]
  dsimp only
  split
  · obtain ⟨k1, k2⟩ := relocate_keeps_readable _ hc1 hs1 hcap0
    exact ⟨rfl, by rw [k1, key], by rw [k2, keysz]⟩
  · exact ⟨rfl, key, keysz⟩

/-- C3: on a one-byte buffer with valid cursors, `commit(n)` with `0 ≤ n ≤ free_size()` returns
`n`, the readable region afterwards is the old one followed by the `n` elements that stood at
offsets `write_index .. write_index + n - 1`, and `size()` grows by exactly `n`, with or without
compaction. -/
theorem c3_commit_readable (b : array_buffer 1 cap) (n : Int)
    (hcap : (cap : Int) ≤ INT_MAX) (hs : b.storage_ok) (hc : b.cursors_ok)
    (h0 : 0 ≤ n) (hn : n ≤ b.free_size) :
    (b.commit n).ret = n ∧
    (b.commit n).buf.readable = b.readable ++ (b.m_buf.drop b.m_write_index.toNat).take n.toNat ∧
    (b.commit n).buf.size = b.size + n := by
  obtain ⟨hr0, hs0⟩ := readable_one_byte b hc hcap
  have hc0 := hc
  obtain ⟨c0, c1, c2⟩ := hc
  unfold array_buffer.capacity at c2
  have hcap0 := hcap
  unfold INT_MAX at hcap
  have hfs : b.free_size = (cap : Int) - b.m_write_index := by
    unfold array_buffer.free_size array_buffer.capacity
    exact wrap_int_of_range _ (by omega) (by omega)
  rw [hfs] at hn
  have hw : wrap_int (b.m_write_index + n) = b.m_write_index + n :=
    wrap_int_of_range _ (by omega) (by omega)
  have hc1 : ({ b with m_write_index := b.m_write_index + n } : array_buffer 1 cap).cursors_ok := by
    simp only [array_buffer.cursors_ok, array_buffer.capacity]
    omega
  have hs1 : ({ b with m_write_index := b.m_write_index + n } : array_buffer 1 cap).storage_ok := hs
  obtain ⟨hr1, hz1⟩ := readable_one_byte _ hc1 hcap0
  have e1 : (b.m_write_index + n - b.m_read_index).toNat
      = (b.m_write_index - b.m_read_index).toNat + n.toNat := by omega
  have e2 : b.m_read_index.toNat + (b.m_write_index - b.m_read_index).toNat
      = b.m_write_index.toNat := by omega
  have key : ({ b with m_write_index := b.m_write_index + n } : array_buffer 1 cap).readable
      = b.readable ++ (b.m_buf.drop b.m_write_index.toNat).take n.toNat := by
    rw [hr1, hr0]
    dsimp only
    rw [e1, List.take_add, List.drop_drop, e2]
  have keysz : ({ b with m_write_index := b.m_write_index + n } : array_buffer 1 cap).size
      = b.size + n := by
    rw [hz1, hs0]; dsimp only; omega
  unfold array_buffer.commit array_buffer.advance_write
  rw [hw, if_neg (by rw [hfs]; omega)]
  dsimp only
  split
  · obtain ⟨k1, k2⟩ := relocate_keeps_readable _ hc1 hs1 hcap0
    exact ⟨rfl, by rw [k1, key], by rw [k2, keysz]⟩
  · exact ⟨rfl, key, keysz⟩

/-- Witness of C2 on the test buffer: `consume(5)` from 42 readable bytes (it compacts). -/
theorem c2_consume_readable_witness :
    ((64 : Nat) : Int) ≤ INT_MAX ∧ test_buffer_committed.storage_ok ∧
    test_buffer_committed.cursors_ok ∧ (0 : Int) ≤ 5 ∧ (5 : Int) ≤ test_buffer_committed.size ∧
    (test_buffer_committed.consume 5).ret = 5 ∧
    (test_buffer_committed.consume 5).buf.readable = test_buffer_committed.readable.drop (5 : Int).toNat ∧
    (test_buffer_committed.consume 5).buf.size = test_buffer_committed.size - 5 :=
  ⟨by decide, by decide, by decide, by decide, by decide,
    c2_consume_readable test_buffer_committed 5 (by decide) (by decide) (by decide) (by decide)
      (by decide)⟩

/-- Witness of C3 on the test buffer: `commit(10)` onto 42 readable bytes; the copy branch
runs, with `read_index = 0`. -/
theorem c3_commit_readable_witness :
    ((64 : Nat) : Int) ≤ INT_MAX ∧ test_buffer_committed.storage_ok ∧
    test_buffer_committed.cursors_ok ∧ (0 : Int) ≤ 10 ∧
    (10 : Int) ≤ test_buffer_committed.free_size ∧
    (test_buffer_committed.commit 10).ret = 10 ∧
    (test_buffer_committed.commit 10).buf.readable
      = test_buffer_committed.readable
          ++ (test_buffer_committed.m_buf.drop test_buffer_committed.m_write_index.toNat).take
              (10 : Int).toNat ∧
    (test_buffer_committed.commit 10).buf.size = test_buffer_committed.size + 10 :=
  ⟨by decide, by decide, by decide, by decide, by decide,
    c3_commit_readable test_buffer_committed 10 (by decide) (by decide) (by decide) (by decide)
      (by decide)⟩

/-- C4: in every buffer state, `commit(n)` with `n > free_size()` returns `-1` and leaves the
whole object (cursors, `min_free`, storage) unchanged; no copy runs. -/
theorem c4_commit_rejected (b : array_buffer sz cap) (n : Int) (h : n > b.free_size) :
    (b.commit n).ret = -1 ∧ (b.commit n).buf = b ∧ (b.commit n).copied = false ∧
    (b.commit n).buf.size = b.size ∧ (b.commit n).buf.free_size = b.free_size := by
  have e : b.commit n = { ret := -1, buf := b, copied := false } := by
    unfold array_buffer.commit array_buffer.advance_write
    rw [if_pos h]
  rw [e]
  exact ⟨rfl, rfl, rfl, rfl, rfl⟩

/-- Witness of C4: `commit(23)` on the test buffer, which has 22 free. -/
theorem c4_commit_rejected_witness :
    (23 : Int) > test_buffer_committed.free_size ∧
    (test_buffer_committed.commit 23).ret = -1 ∧
    (test_buffer_committed.commit 23).buf = test_buffer_committed :=
  ⟨by decide, (c4_commit_rejected test_buffer_committed 23 (by decide)).1,
    (c4_commit_rejected test_buffer_committed 23 (by decide)).2.1⟩

/-- C5 (code defect, evaluated): in the reachable state `read_index = 1`, `write_index = 10` of
a 64-byte buffer, `n = INT_MAX` has `read_index + n > write_index` and `> capacity`, yet
`consume(n)` does not return `-1` and moves `read_index` to `INT_MIN`: both guards of `consume`
compare the `int` sum `m_read_index + n_elem`, which overflows. -/
theorem c5_counterexample :
    small_buffer_read_one.m_read_index = 1 ∧ small_buffer_read_one.m_write_index = 10 ∧
    small_buffer_read_one.m_read_index + 2147483647 > small_buffer_read_one.m_write_index ∧
    small_buffer_read_one.m_read_index + 2147483647 > small_buffer_read_one.capacity ∧
    (small_buffer_read_one.consume 2147483647).ret = 2147483647 ∧
    (small_buffer_read_one.consume 2147483647).ret ≠ -1 ∧
    (small_buffer_read_one.consume 2147483647).buf.m_read_index = -2147483648 ∧
    (small_buffer_read_one.consume 2147483647).buf ≠ small_buffer_read_one := by
  decide

/-- The guards of `consume` where the sum fits: in every buffer state, for every `n` whose sum
`read_index + n` is representable as an `int` and exceeds `write_index` or `capacity`,
`consume(n)` returns `-1` and leaves the whole object (cursors, `min_free`, storage)
unchanged. -/
theorem c5_consume_rejected (b : array_buffer sz cap) (n : Int)
    (hlo : INT_MIN ≤ b.m_read_index + n) (hhi : b.m_read_index + n ≤ INT_MAX)
    (h : b.m_read_index + n > b.m_write_index ∨ b.m_read_index + n > b.capacity) :
    (b.consume n).ret = -1 ∧ (b.consume n).buf = b ∧ (b.consume n).copied = false := by
  unfold INT_MIN at hlo
  unfold INT_MAX at hhi
  have hr : wrap_int (b.m_read_index + n) = b.m_read_index + n :=
    wrap_int_of_range _ hlo hhi
  have e : b.consume n = { ret := -1, buf := b, copied := false } := by
    unfold array_buffer.consume array_buffer.advance_read
    rw [hr]
    by_cases h1 : b.m_read_index + n > b.capacity
    · rw [if_pos h1]
    · rw [if_neg h1]
      have h2 : b.m_read_index + n > b.m_write_index := by
        rcases h with h | h
        · exact h
        · exact absurd h h1
      rw [if_pos h2]
  rw [e]
  exact ⟨rfl, rfl, rfl⟩

/-- Instance of `c5_consume_rejected`: `consume(43)` on the test buffer, which has 42
readable. -/
theorem c5_consume_rejected_witness :
    INT_MIN ≤ test_buffer_committed.m_read_index + 43 ∧
    test_buffer_committed.m_read_index + 43 ≤ INT_MAX ∧
    test_buffer_committed.m_read_index + 43 > test_buffer_committed.m_write_index ∧
    (test_buffer_committed.consume 43).ret = -1 ∧
    (test_buffer_committed.consume 43).buf = test_buffer_committed :=
  ⟨by decide, by decide, by decide,
    (c5_consume_rejected test_buffer_committed 43 (by decide) (by decide)
      (Or.inl (by decide))).1,
    (c5_consume_rejected test_buffer_committed 43 (by decide) (by decide)
      (Or.inl (by decide))).2.1⟩

/-! ## Compaction -/

theorem take_one_drop (l : List Nat) (i v : Nat) (h : l[i]? = some v) :
    (l.drop i).take 1 = [v] := by
  obtain ⟨hi, hv⟩ := List.getElem?_eq_some.mp h
  rw [List.drop_eq_getElem_cons hi, hv]
  rfl

/-- The copy branch of `relocate` on a one-byte buffer zeroes every slot from the new
`write_index` to the end of the storage. -/
theorem relocate_copy_zero_tail (b : array_buffer 1 cap) (hcap : (cap : Int) ≤ INT_MAX)
    (hs : b.storage_ok) (hc : b.cursors_ok) (hf : b.free_size ≤ b.capacity / 2) :
    ∀ i : Nat, b.relocate.1.m_write_index ≤ (i : Int) → i < cap →
      b.relocate.1.elem_at i = zero_elem 1 := by
  have hrel := relocate_one_byte b hc hs hcap (not_lt.mpr hf)
  obtain ⟨h0, h1, h2⟩ := hc
  unfold array_buffer.capacity at h2
  unfold array_buffer.storage_ok at hs
  unfold INT_MAX at hcap
  have hlen : ((b.m_buf.drop b.m_read_index.toNat).take
      (b.m_write_index - b.m_read_index).toNat).length
        = (b.m_write_index - b.m_read_index).toNat := by
    simp only [List.length_take, List.length_drop]; omega
  intro i hi hic
  rw [hrel] at hi ⊢
  simp only [array_buffer.elem_at, Nat.mul_one, zero_elem, List.replicate_one] at hi ⊢
  apply take_one_drop
  rw [List.getElem?_append_right (by omega), hlen, List.getElem?_replicate]
  rw [if_pos (by omega)]

/-- C6: on a one-byte buffer with valid cursors and `free_size() ≤ capacity/2`, `relocate` runs
its copy branch, sets `read_index = 0` and `write_index` to the old `size()`, puts at each
offset `i < size()` the element formerly at `read_index + i`, zeroes every slot from the new
`write_index` to `capacity - 1`, keeps `size()` and `min_free`, and raises `free_size()` by
exactly the old `read_index`. -/
theorem c6_relocate_one_byte (b : array_buffer 1 cap) (hcap : (cap : Int) ≤ INT_MAX)
    (hs : b.storage_ok) (hc : b.cursors_ok) (hf : b.free_size ≤ b.capacity / 2) :
    b.relocate.2 = true ∧
    b.relocate.1.m_read_index = 0 ∧
    b.relocate.1.m_write_index = b.size ∧
    (∀ i : Nat, (i : Int) < b.size →
      b.relocate.1.elem_at i = b.elem_at (b.m_read_index.toNat + i)) ∧
    (∀ i : Nat, b.relocate.1.m_write_index ≤ (i : Int) → i < cap →
      b.relocate.1.elem_at i = zero_elem 1) ∧
    b.relocate.1.size = b.size ∧
    b.relocate.1.m_min_free = b.m_min_free ∧
    b.relocate.1.free_size = b.free_size + b.m_read_index := by
  have hsz := (readable_one_byte b hc hcap).2
  have hrel := relocate_one_byte b hc hs hcap (not_lt.mpr hf)
  have hsz2 := (relocate_keeps_readable b hc hs hcap).2
  have hzero := relocate_copy_zero_tail b hcap hs hc hf
  obtain ⟨h0, h1, h2⟩ := hc
  unfold array_buffer.capacity at h2
  unfold array_buffer.storage_ok at hs
  unfold INT_MAX at hcap
  have hlen : ((b.m_buf.drop b.m_read_index.toNat).take
      (b.m_write_index - b.m_read_index).toNat).length
        = (b.m_write_index - b.m_read_index).toNat := by
    simp only [List.length_take, List.length_drop]; omega
  refine ⟨by rw [hrel], by rw [hrel], by rw [hrel, hsz], ?_, ?_, hsz2, by rw [hrel], ?_⟩
  · intro i hi
    rw [hsz] at hi
    have hin : b.m_read_index.toNat + i < b.m_buf.length := by omega
    rw [hrel]
    simp only [array_buffer.elem_at, Nat.mul_one]
    rw [take_one_drop _ _ (b.m_buf[b.m_read_index.toNat + i]) (List.getElem?_eq_getElem hin)]
    apply take_one_drop
    rw [List.getElem?_append_left (by omega), List.getElem?_take_of_lt (by omega),
      List.getElem?_drop, List.getElem?_eq_getElem hin]
  · exact hzero
  · rw [hrel]
    unfold array_buffer.free_size array_buffer.capacity
    dsimp only
    rw [wrap_int_of_range _ (by omega) (by omega), wrap_int_of_range _ (by omega) (by omega)]
    omega

/-- Witness of C6: the test buffer after its read cursor has advanced by 5. -/
theorem c6_relocate_one_byte_witness :
    ((64 : Nat) : Int) ≤ INT_MAX ∧
    ({ test_buffer_committed with m_read_index := 5 } : array_buffer 1 64).storage_ok ∧
    ({ test_buffer_committed with m_read_index := 5 } : array_buffer 1 64).cursors_ok ∧
    ({ test_buffer_committed with m_read_index := 5 } : array_buffer 1 64).free_size
      ≤ ({ test_buffer_committed with m_read_index := 5 } : array_buffer 1 64).capacity / 2 ∧
    ({ test_buffer_committed with m_read_index := 5 } : array_buffer 1 64).relocate.1.m_read_index
      = 0 ∧
    ({ test_buffer_committed with m_read_index := 5 } : array_buffer 1 64).relocate.1.m_write_index
      = ({ test_buffer_committed with m_read_index := 5 } : array_buffer 1 64).size :=
  ⟨by decide, by decide, by decide, by decide,
    (c6_relocate_one_byte ({ test_buffer_committed with m_read_index := 5 } : array_buffer 1 64)
      (by decide) (by decide) (by decide) (by decide)).2.1,
    (c6_relocate_one_byte ({ test_buffer_committed with m_read_index := 5 } : array_buffer 1 64)
      (by decide) (by decide) (by decide) (by decide)).2.2.1⟩

/-- C7 (code defect, evaluated): on an `array_buffer<int32_t, 8>` holding `1..6`, `consume(2)`
triggers the copy; afterwards `size() = 4` and `write_index = 4`, but only one element was
copied and one zeroed: offset 1 still holds `2`, not the element `4` formerly at
`read_index + 1 = 3`, and offset 5 still holds `6`, not zero.  `relocate` passes the element
counts `size()` and `free_size()` to `memcpy`/`memset` as byte counts. -/
theorem c7_wide_elements_not_compacted :
    (wide_buffer_committed.consume 2).ret = 2 ∧
    (wide_buffer_committed.consume 2).copied = true ∧
    (wide_buffer_committed.consume 2).buf.m_read_index = 0 ∧
    (wide_buffer_committed.consume 2).buf.m_write_index = 4 ∧
    (wide_buffer_committed.consume 2).buf.size = 4 ∧
    wide_buffer_committed.elem_at (2 + 1) = small_value 4 4 ∧
    (wide_buffer_committed.consume 2).buf.elem_at 1 = small_value 4 2 ∧
    (wide_buffer_committed.consume 2).buf.elem_at 1 ≠ wide_buffer_committed.elem_at (2 + 1) ∧
    (wide_buffer_committed.consume 2).buf.elem_at 5 = small_value 4 6 ∧
    (wide_buffer_committed.consume 2).buf.elem_at 5 ≠ zero_elem 4 := by
  decide

theorem relocate_copied_iff (b : array_buffer sz cap) :
    (b.relocate.2 = true ↔ b.free_size ≤ b.capacity / 2) ∧
    (b.relocate.2 = true → b.relocate.1.m_read_index = 0) := by
  unfold array_buffer.relocate
  by_cases hf : b.free_size > b.capacity / 2
  · rw [if_pos hf]
    constructor
    · constructor
      · intro h; exact absurd h (by simp)
      · intro h; exact absurd hf (not_lt.mpr h)
    · intro h; exact absurd h (by simp)
  · rw [if_neg hf]
    exact ⟨⟨fun _ => not_lt.mp hf, fun _ => rfl⟩, fun _ => rfl⟩

/-- C8: for every successful (not rejected) `commit(n)` or `consume(n)`, the copy of `relocate`
runs during the call if and only if, after the cursor has been advanced, `free_size() < min_free`
and `free_size() ≤ capacity/2`; and whenever it runs the resulting `read_index` is `0`.  This
holds in every state, in particular in those satisfying the cursor invariant. -/
theorem c8_compaction_iff (b : array_buffer sz cap) (n : Int) :
    (¬ b.commit_rejected n →
      ((b.commit n).copied = true ↔
        ((b.advance_write n).free_size < (b.advance_write n).m_min_free ∧
          (b.advance_write n).free_size ≤ (b.advance_write n).capacity / 2)) ∧
      ((b.commit n).copied = true → (b.commit n).buf.m_read_index = 0)) ∧
    (¬ b.consume_rejected n →
      ((b.consume n).copied = true ↔
        ((b.advance_read n).free_size < (b.advance_read n).m_min_free ∧
          (b.advance_read n).free_size ≤ (b.advance_read n).capacity / 2)) ∧
      ((b.consume n).copied = true → (b.consume n).buf.m_read_index = 0)) := by
  constructor
  · intro hrej
    unfold array_buffer.commit_rejected at hrej
    unfold array_buffer.commit
    rw [if_neg hrej]
    dsimp only
    obtain ⟨r1, r2⟩ := relocate_copied_iff (b.advance_write n)
    by_cases ht : (b.advance_write n).free_size < (b.advance_write n).m_min_free
    · rw [if_pos ht]
      exact ⟨⟨fun h => ⟨ht, r1.mp h⟩, fun h => r1.mpr h.2⟩, r2⟩
    · rw [if_neg ht]
      exact ⟨⟨fun h => absurd h (by simp), fun h => absurd h.1 ht⟩, fun h => absurd h (by simp)⟩
  · intro hrej
    unfold array_buffer.consume_rejected at hrej
    unfold array_buffer.consume
    rw [if_neg (fun h => hrej (Or.inl h)), if_neg (fun h => hrej (Or.inr h))]
    dsimp only
    obtain ⟨r1, r2⟩ := relocate_copied_iff (b.advance_read n)
    by_cases ht : (b.advance_read n).free_size < (b.advance_read n).m_min_free
    · rw [if_pos ht]
      exact ⟨⟨fun h => ⟨ht, r1.mp h⟩, fun h => r1.mpr h.2⟩, r2⟩
    · rw [if_neg ht]
      exact ⟨⟨fun h => absurd h (by simp), fun h => absurd h.1 ht⟩, fun h => absurd h (by simp)⟩

/-- Witness of C8 on the test buffer, which satisfies the cursor invariant: `commit(10)` and
`consume(5)` both succeed and both run the copy. -/
theorem c8_compaction_iff_witness :
    test_buffer_committed.cursors_ok ∧
    ¬ test_buffer_committed.commit_rejected 10 ∧ ¬ test_buffer_committed.consume_rejected 5 ∧
    ((test_buffer_committed.commit 10).copied = true ↔
      ((test_buffer_committed.advance_write 10).free_size
          < (test_buffer_committed.advance_write 10).m_min_free ∧
        (test_buffer_committed.advance_write 10).free_size
          ≤ (test_buffer_committed.advance_write 10).capacity / 2)) ∧
    ((test_buffer_committed.consume 5).copied = true →
      (test_buffer_committed.consume 5).buf.m_read_index = 0) :=
  ⟨by decide, by decide, by decide,
    ((c8_compaction_iff test_buffer_committed 10).1 (by decide)).1,
    ((c8_compaction_iff test_buffer_committed 5).2 (by decide)).2⟩

/-- C9 (code defect, evaluated): on an `array_buffer<int32_t, 8>` with `read_index = 2`,
`write_index = 4`, the producer wrote `5, 6` at offsets 4 and 5 and every element at or beyond
offset `write_index + 2 = 6` is zero.  `commit(2)` succeeds and runs the copy; afterwards
`write_index = 4`, yet the element at offset 5 is still `6`, not zero: `relocate` zeroes
`free_size()` bytes, not `free_size()` elements. -/
theorem c9_wide_zero_tail_broken :
    wide_buffer_before_commit.m_read_index = 2 ∧
    wide_buffer_before_commit.m_write_index = 4 ∧
    wide_buffer_before_commit.elem_at 6 = zero_elem 4 ∧
    wide_buffer_before_commit.elem_at 7 = zero_elem 4 ∧
    (wide_buffer_before_commit.commit 2).ret = 2 ∧
    (wide_buffer_before_commit.commit 2).copied = true ∧
    (wide_buffer_before_commit.commit 2).buf.m_write_index = 4 ∧
    (wide_buffer_before_commit.commit 2).buf.elem_at 5 = small_value 4 6 ∧
    (wide_buffer_before_commit.commit 2).buf.elem_at 5 ≠ zero_elem 4 := by
  decide

/-- C10 (as stated, refuted): on a fresh 64-byte buffer `commit(-1)` is not rejected, moves
`write_index` to `-1`, and returns `-1`, the failure value; likewise `consume(-1)`. -/
theorem c10_counterexample :
    ¬ (array_buffer.construct 1 64 (List.replicate 64 0)).commit_rejected (-1) ∧
    ((array_buffer.construct 1 64 (List.replicate 64 0)).commit (-1)).buf.m_write_index = -1 ∧
    ((array_buffer.construct 1 64 (List.replicate 64 0)).commit (-1)).ret = -1 ∧
    ¬ (array_buffer.construct 1 64 (List.replicate 64 0)).consume_rejected (-1) ∧
    ((array_buffer.construct 1 64 (List.replicate 64 0)).consume (-1)).buf.m_read_index = -1 ∧
    ((array_buffer.construct 1 64 (List.replicate 64 0)).consume (-1)).ret = -1 := by
  decide

/-! ## Zero tail on one-byte buffers -/

/-- On a one-byte buffer with valid cursors `relocate`, whichever branch it takes, keeps a zero
tail: if every slot from `write_index` on is zero before, every slot from the new `write_index`
on is zero afterwards. -/
theorem relocate_one_byte_zero_tail (b : array_buffer 1 cap) (hcap : (cap : Int) ≤ INT_MAX)
    (hs : b.storage_ok) (hc : b.cursors_ok)
    (hz : ∀ i : Nat, b.m_write_index ≤ (i : Int) → i < cap → b.elem_at i = zero_elem 1) :
    ∀ i : Nat, b.relocate.1.m_write_index ≤ (i : Int) → i < cap →
      b.relocate.1.elem_at i = zero_elem 1 := by
  by_cases hf : b.free_size > b.capacity / 2
  · have : b.relocate = (b, false) := by
      unfold array_buffer.relocate
      rw [if_pos hf]
    rw [this]
    exact hz
  · exact relocate_copy_zero_tail b hcap hs hc (not_lt.mp hf)

/-- The zero-tail invariant on one-byte buffers: a successful `commit(n)` or `consume(n)` with a
non-negative count keeps every slot at or beyond the write cursor zero, provided the slots at or
beyond `write_index + n` (for `commit`) or `write_index` (for `consume`) were zero before. -/
theorem zero_tail_one_byte (b : array_buffer 1 cap) (n : Int) (hcap : (cap : Int) ≤ INT_MAX)
    (hs : b.storage_ok) (hc : b.cursors_ok) (h0 : 0 ≤ n) :
    (n ≤ b.free_size →
      (∀ i : Nat, b.m_write_index + n ≤ (i : Int) → i < cap → b.elem_at i = zero_elem 1) →
      ∀ i : Nat, (b.commit n).buf.m_write_index ≤ (i : Int) → i < cap →
        (b.commit n).buf.elem_at i = zero_elem 1) ∧
    (n ≤ b.size →
      (∀ i : Nat, b.m_write_index ≤ (i : Int) → i < cap → b.elem_at i = zero_elem 1) →
      ∀ i : Nat, (b.consume n).buf.m_write_index ≤ (i : Int) → i < cap →
        (b.consume n).buf.elem_at i = zero_elem 1) := by
  have hsz := (readable_one_byte b hc hcap).2
  have hc0 := hc
  obtain ⟨c0, c1, c2⟩ := hc
  unfold array_buffer.capacity at c2
  have hcap0 := hcap
  unfold INT_MAX at hcap
  have hfs : b.free_size = (cap : Int) - b.m_write_index := by
    unfold array_buffer.free_size array_buffer.capacity
    exact wrap_int_of_range _ (by omega) (by omega)
  constructor
  · intro hn hz
    rw [hfs] at hn
    have hw : wrap_int (b.m_write_index + n) = b.m_write_index + n :=
      wrap_int_of_range _ (by omega) (by omega)
    have hc1 : ({ b with m_write_index := b.m_write_index + n } :
        array_buffer 1 cap).cursors_ok := by
      simp only [array_buffer.cursors_ok, array_buffer.capacity]
      omega
    unfold array_buffer.commit array_buffer.advance_write
    rw [hw, if_neg (by rw [hfs]; omega)]
    dsimp only
    split
    · exact relocate_one_byte_zero_tail _ hcap0 hs hc1 hz
    · exact hz
  · intro hn hz
    rw [hsz] at hn
    have hr : wrap_int (b.m_read_index + n) = b.m_read_index + n :=
      wrap_int_of_range _ (by omega) (by omega)
    have hc1 : ({ b with m_read_index := b.m_read_index + n } :
        array_buffer 1 cap).cursors_ok := by
      simp only [array_buffer.cursors_ok, array_buffer.capacity]
      omega
    unfold array_buffer.consume array_buffer.advance_read
    rw [hr, if_neg (by unfold array_buffer.capacity; omega), if_neg (by omega)]
    dsimp only
    split
    · exact relocate_one_byte_zero_tail _ hcap0 hs hc1 hz
    · exact hz

/-! ## The low-water mark: `set_min_free` -/

theorem relocate_min_free (b : array_buffer sz cap) :
    b.relocate.1.m_min_free = b.m_min_free := by
  unfold array_buffer.relocate
  split <;> rfl

theorem commit_min_free (b : array_buffer sz cap) (n : Int) :
    (b.commit n).buf.m_min_free = b.m_min_free := by
  unfold array_buffer.commit array_buffer.advance_write
  split
  · rfl
  · dsimp only
    split
    · exact relocate_min_free _
    · rfl

theorem consume_min_free (b : array_buffer sz cap) (n : Int) :
    (b.consume n).buf.m_min_free = b.m_min_free := by
  unfold array_buffer.consume array_buffer.advance_read
  split
  · rfl
  · split
    · rfl
    · dsimp only
      split
      · exact relocate_min_free _
      · rfl

theorem set_min_free_stored (b : array_buffer sz cap) (n : Int) :
    (b.set_min_free n).buf.m_min_free = min n (b.capacity / 2) ∧
    (b.set_min_free n).ret = (b.set_min_free n).buf.m_min_free := by
  unfold array_buffer.set_min_free array_buffer.capacity
  split
  · refine ⟨?_, rfl⟩
    dsimp only
    omega
  · refine ⟨?_, rfl⟩
    dsimp only
    omega

/-- C11: in every buffer state and for every `int n`, `set_min_free(n)` stores
`min(n, capacity/2)` as `min_free`, returns exactly the value it stored, and leaves `read_index`,
`write_index` and the storage unchanged; the copy of `relocate` never runs. -/
theorem c11_set_min_free (b : array_buffer sz cap) (n : Int) :
    (b.set_min_free n).buf.m_min_free = min n (b.capacity / 2) ∧
    (b.set_min_free n).ret = (b.set_min_free n).buf.m_min_free ∧
    (b.set_min_free n).buf.m_read_index = b.m_read_index ∧
    (b.set_min_free n).buf.m_write_index = b.m_write_index ∧
    (b.set_min_free n).buf.m_buf = b.m_buf ∧
    (b.set_min_free n).copied = false := by
  refine ⟨(set_min_free_stored b n).1, (set_min_free_stored b n).2, ?_, ?_, ?_, ?_⟩ <;>
    (unfold array_buffer.set_min_free; split <;> rfl)

theorem step_min_free_le (b : array_buffer sz cap) (c : call)
    (h : b.m_min_free ≤ b.capacity / 2) : (b.step c).m_min_free ≤ (b.step c).capacity / 2 := by
  cases c with
  | set_min_free n =>
    have := (set_min_free_stored b n).1
    show (b.set_min_free n).buf.m_min_free ≤ (b.set_min_free n).buf.capacity / 2
    unfold array_buffer.capacity at this ⊢
    omega
  | commit n =>
    show (b.commit n).buf.m_min_free ≤ b.capacity / 2
    rw [commit_min_free]
    exact h
  | consume n =>
    show (b.consume n).buf.m_min_free ≤ b.capacity / 2
    rw [consume_min_free]
    exact h

theorem step_min_free_nonneg (b : array_buffer sz cap) (c : call)
    (h : 0 ≤ b.m_min_free) (hc : c.min_free_arg_nonneg) : 0 ≤ (b.step c).m_min_free := by
  cases c with
  | set_min_free n =>
    have := (set_min_free_stored b n).1
    unfold call.min_free_arg_nonneg at hc
    unfold array_buffer.capacity at this
    show 0 ≤ (b.set_min_free n).buf.m_min_free
    omega
  | commit n =>
    show _ ≤ (b.commit n).buf.m_min_free
    rw [commit_min_free]
    exact h
  | consume n =>
    show _ ≤ (b.consume n).buf.m_min_free
    rw [consume_min_free]
    exact h

theorem run_min_free_le (b : array_buffer sz cap) (cs : List call)
    (h : b.m_min_free ≤ b.capacity / 2) : (b.run cs).m_min_free ≤ (b.run cs).capacity / 2 := by
  induction cs generalizing b with
  | nil => exact h
  | cons c cs ih => exact ih (b.step c) (step_min_free_le b c h)

theorem run_min_free_nonneg (b : array_buffer sz cap) (cs : List call)
    (h : 0 ≤ b.m_min_free) (hc : ∀ c ∈ cs, c.min_free_arg_nonneg) :
    0 ≤ (b.run cs).m_min_free := by
  induction cs generalizing b with
  | nil => exact h
  | cons c cs ih =>
    exact ih (b.step c) (step_min_free_nonneg b c h (hc c (List.mem_cons_self c cs)))
      (fun d hd => hc d (List.mem_cons_of_mem c hd))

theorem construct_min_free (sz cap : Nat) (raw : List Nat) :
    0 ≤ (array_buffer.construct sz cap raw).m_min_free ∧
    (array_buffer.construct sz cap raw).m_min_free
      ≤ (array_buffer.construct sz cap raw).capacity / 2 := by
  unfold array_buffer.construct array_buffer.capacity
  dsimp only
  omega

/-- C12 (as stated, refuted): on a fresh 64-byte buffer `set_min_free(-5)` stores `-5`, which is
below `0`. -/
theorem c12_counterexample :
    ((array_buffer.construct 1 64 (List.replicate 64 0)).set_min_free (-5)).buf.m_min_free = -5 ∧
    ¬ (0 ≤ ((array_buffer.construct 1 64 (List.replicate 64 0)).run
        [call.set_min_free (-5)]).m_min_free) := by
  decide

/-- C15 (as stated, refuted): on a fresh 64-byte buffer `set_min_free(100)` returns `32`, which is
neither `-1` nor `100`. -/
theorem c15_counterexample :
    ((array_buffer.construct 1 64 (List.replicate 64 0)).set_min_free 100).ret = 32 ∧
    ((array_buffer.construct 1 64 (List.replicate 64 0)).set_min_free 100).ret ≠ -1 ∧
    ((array_buffer.construct 1 64 (List.replicate 64 0)).set_min_free 100).ret ≠ 100 := by
  decide

/-- C15 (amended): for every `int n`, `set_min_free(n)` returns `n` when `n ≤ capacity/2` and
`capacity/2` otherwise; it has no failure path, and it returns `-1` only when `n = -1`. -/
theorem c15_set_min_free_return (b : array_buffer sz cap) (n : Int) :
    (n ≤ b.capacity / 2 → (b.set_min_free n).ret = n) ∧
    (n > b.capacity / 2 → (b.set_min_free n).ret = b.capacity / 2) ∧
    ((b.set_min_free n).ret = -1 → n = -1) := by
  obtain ⟨h1, h2⟩ := set_min_free_stored b n
  rw [← h2] at h1
  unfold array_buffer.capacity at h1 ⊢
  refine ⟨fun h => ?_, fun h => ?_, fun h => ?_⟩ <;> omega

/-- Witness of C15 (amended) on the test buffer: `24` is returned as is, `100` is clamped to
`32`. -/
theorem c15_set_min_free_return_witness :
    (24 : Int) ≤ test_buffer_committed.capacity / 2 ∧
    (test_buffer_committed.set_min_free 24).ret = 24 ∧
    (100 : Int) > test_buffer_committed.capacity / 2 ∧
    (test_buffer_committed.set_min_free 100).ret = test_buffer_committed.capacity / 2 :=
  ⟨by decide, (c15_set_min_free_return test_buffer_committed 24).1 (by decide),
    by decide, (c15_set_min_free_return test_buffer_committed 100).2.1 (by decide)⟩

/-! ## Construction and the test scenario -/

theorem memset_whole (raw : List Nat) :
    memset raw 0 0 raw.length = List.replicate raw.length 0 := by
  apply List.ext_getElem?
  intro j
  rw [memset_getElem?, List.getElem?_replicate]
  by_cases hj : j < raw.length
  · rw [if_pos ⟨Nat.zero_le j, by omega, hj⟩, if_pos hj]
  · rw [if_neg (fun h => hj h.2.2), if_neg hj]
    exact List.getElem?_eq_none (by omega)

theorem construct_storage (sz cap : Nat) (raw : List Nat) (hraw : raw.length = cap * sz) :
    (array_buffer.construct sz cap raw).m_buf = List.replicate (cap * sz) 0 := by
  unfold array_buffer.construct
  dsimp only
  rw [← hraw, memset_whole]

theorem construct_independent_of_raw (sz cap : Nat) (raw : List Nat)
    (hraw : raw.length = cap * sz) :
    array_buffer.construct sz cap raw
      = array_buffer.construct sz cap (List.replicate (cap * sz) 0) := by
  have h1 := construct_storage sz cap raw hraw
  have h2 := construct_storage sz cap (List.replicate (cap * sz) 0) (by simp)
  unfold array_buffer.construct at h1 h2 ⊢
  dsimp only at h1 h2
  rw [h1, h2]

/-- C13: a freshly constructed buffer has `read_index = write_index = 0`, `size() = 0`,
`free_size() = capacity() = TCapacity`, `min_free = capacity/4`, every storage element zero,
and `read_ptr()`, `write_ptr()` and `raw_ptr()` all at offset `0`. -/
theorem c13_fresh_buffer (sz cap : Nat) (raw : List Nat) (hraw : raw.length = cap * sz)
    (hcap : (cap : Int) ≤ INT_MAX) :
    (array_buffer.construct sz cap raw).m_read_index = 0 ∧
    (array_buffer.construct sz cap raw).m_write_index = 0 ∧
    (array_buffer.construct sz cap raw).size = 0 ∧
    (array_buffer.construct sz cap raw).free_size = (cap : Int) ∧
    (array_buffer.construct sz cap raw).capacity = (cap : Int) ∧
    (array_buffer.construct sz cap raw).m_min_free
      = (array_buffer.construct sz cap raw).capacity / 4 ∧
    (∀ i : Nat, i < cap → (array_buffer.construct sz cap raw).elem_at i = zero_elem sz) ∧
    (array_buffer.construct sz cap raw).read_ptr = 0 ∧
    (array_buffer.construct sz cap raw).write_ptr = 0 ∧
    (array_buffer.construct sz cap raw).raw_ptr = 0 ∧
    (array_buffer.construct sz cap raw).const_raw_ptr = 0 := by
  unfold INT_MAX at hcap
  refine ⟨rfl, rfl, ?_, ?_, rfl, ?_, ?_, rfl, rfl, rfl, rfl⟩
  · unfold array_buffer.size array_buffer.construct
    dsimp only
    exact wrap_int_of_range _ (by omega) (by omega)
  · unfold array_buffer.free_size array_buffer.capacity array_buffer.construct
    dsimp only
    rw [wrap_int_of_range _ (by omega) (by omega)]
    omega
  · unfold array_buffer.capacity array_buffer.construct
    dsimp only
    omega
  · intro i hi
    unfold array_buffer.elem_at zero_elem
    rw [construct_storage sz cap raw hraw, List.drop_replicate, List.take_replicate]
    congr 1
    have h1 : (i + 1) * sz ≤ cap * sz := Nat.mul_le_mul_right sz hi
    have h2 : (i + 1) * sz = i * sz + sz := by ring
    omega

/-- Witness of C13: an `array_buffer<int32_t, 8>` constructed over storage filled with `0xAA`. -/
theorem c13_fresh_buffer_witness :
    (List.replicate 32 170).length = 8 * 4 ∧ ((8 : Nat) : Int) ≤ INT_MAX ∧
    (array_buffer.construct 4 8 (List.replicate 32 170)).free_size = ((8 : Nat) : Int) ∧
    (∀ i : Nat, i < 8 →
      (array_buffer.construct 4 8 (List.replicate 32 170)).elem_at i = zero_elem 4) :=
  ⟨by decide, by decide,
    (c13_fresh_buffer 4 8 (List.replicate 32 170) (by decide) (by decide)).2.2.2.1,
    (c13_fresh_buffer 4 8 (List.replicate 32 170) (by decide) (by decide)).2.2.2.2.2.2.1⟩

/-- C14: the concrete scenario on a 64-element byte buffer.  After `set_min_free(24)`, storing
`0..41` and `commit(42)`: `size() = 42`, `free_size() = 22`.  `consume(5)` runs the copy:
`read_index = 0`, `write_index = 37`, `size() = 37`, `free_size() = 27`, offset `i < 37` holds
`i + 5`, offsets `37..63` are zero.  `consume(13)`: `read_index = 13`, `size() = 24`,
`free_size() = 27`, no copy.  `consume(19)`: `read_index = 32`, `write_index = 37`,
`size() = 5`, `free_size() = 27`, the readable region holds `37..41`, offsets `37..63` are
zero. -/
theorem c14_scenario (raw : List Nat) (hraw : raw.length = 64) :
    ((scenario_committed raw).size = 42 ∧ (scenario_committed raw).free_size = 22) ∧
    (((scenario_committed raw).consume 5).ret = 5 ∧
      ((scenario_committed raw).consume 5).copied = true ∧
      (scenario_consumed_5 raw).m_read_index = 0 ∧
      (scenario_consumed_5 raw).m_write_index = 37 ∧
      (scenario_consumed_5 raw).size = 37 ∧
      (scenario_consumed_5 raw).free_size = 27 ∧
      (∀ i : Nat, i < 37 → (scenario_consumed_5 raw).elem_at i = [i + 5]) ∧
      (∀ i : Nat, i < 64 → 37 ≤ i → (scenario_consumed_5 raw).elem_at i = zero_elem 1)) ∧
    (((scenario_consumed_5 raw).consume 13).ret = 13 ∧
      ((scenario_consumed_5 raw).consume 13).copied = false ∧
      (scenario_consumed_13 raw).m_read_index = 13 ∧
      (scenario_consumed_13 raw).size = 24 ∧
      (scenario_consumed_13 raw).free_size = 27) ∧
    (((scenario_consumed_13 raw).consume 19).ret = 19 ∧
      (scenario_consumed_19 raw).m_read_index = 32 ∧
      (scenario_consumed_19 raw).m_write_index = 37 ∧
      (scenario_consumed_19 raw).size = 5 ∧
      (scenario_consumed_19 raw).free_size = 27 ∧
      (scenario_consumed_19 raw).readable = [37, 38, 39, 40, 41] ∧
      (∀ i : Nat, i < 64 → 37 ≤ i → (scenario_consumed_19 raw).elem_at i = zero_elem 1)) := by
  have h : scenario_committed raw = scenario_committed (List.replicate (64 * 1) 0) := by
    unfold scenario_committed
    rw [construct_independent_of_raw 1 64 raw (by omega)]
  unfold scenario_consumed_19 scenario_consumed_13 scenario_consumed_5
  rw [h]
  decide

/-- Witness of C14: the scenario over storage that held `0xAA` bytes before construction. -/
theorem c14_scenario_witness :
    (List.replicate 64 170).length = 64 ∧
    (scenario_consumed_5 (List.replicate 64 170)).m_write_index = 37 ∧
    (scenario_consumed_19 (List.replicate 64 170)).readable = [37, 38, 39, 40, 41] :=
  ⟨by decide, (c14_scenario (List.replicate 64 170) (by decide)).2.1.2.2.2.1,
    (c14_scenario (List.replicate 64 170) (by decide)).2.2.2.2.2.2.2.2.1⟩

/-! ## Cursor invariant per call, and the `int` sum in `consume` -/

/-- C16 (code defect, evaluated): the third stage of the test scenario has `read_index = 13`,
`write_index = 37` and satisfies the cursor invariant; `consume(2147483640)` with `n ≥ 0` is
accepted, because the `int` sum `m_read_index + n_elem` of the guards overflows, and leaves a
negative `read_index`. -/
theorem c16_counterexample :
    (scenario_consumed_13 (List.replicate 64 0)).cursors_ok ∧
    (0 : Int) ≤ 2147483640 ∧
    ((scenario_consumed_13 (List.replicate 64 0)).consume 2147483640).ret = 2147483640 ∧
    ((scenario_consumed_13 (List.replicate 64 0)).consume 2147483640).buf.m_read_index
      = -2147483643 ∧
    ¬ ((scenario_consumed_13 (List.replicate 64 0)).consume 2147483640).buf.cursors_ok := by
  decide

/-- The cursor invariant per call where the sum fits: from every state with
`0 ≤ read_index ≤ write_index ≤ capacity` and for every `n ≥ 0`, `commit(n)` and
`set_min_free(n)` leave a state with the same invariant, and so does `consume(n)` whenever
`read_index + n ≤ INT_MAX`. -/
theorem c16_calls_keep_cursors (b : array_buffer sz cap) (n : Int)
    (hcap : (cap : Int) ≤ INT_MAX) (hc : b.cursors_ok) (hn : 0 ≤ n) :
    (b.commit n).buf.cursors_ok ∧
    (b.set_min_free n).buf.cursors_ok ∧
    (b.m_read_index + n ≤ INT_MAX → (b.consume n).buf.cursors_ok) :=
  ⟨commit_cursors_ok b n hc hcap hn, set_min_free_cursors_ok b n hc,
    fun hsum => consume_cursors_ok b n hc hn hsum hcap⟩

/-- Instance of `c16_calls_keep_cursors` on the test buffer: `commit(10)`, `set_min_free(10)`
and `consume(10)`. -/
theorem c16_calls_keep_cursors_witness :
    ((64 : Nat) : Int) ≤ INT_MAX ∧ test_buffer_committed.cursors_ok ∧ (0 : Int) ≤ 10 ∧
    test_buffer_committed.m_read_index + 10 ≤ INT_MAX ∧
    (test_buffer_committed.commit 10).buf.cursors_ok ∧
    (test_buffer_committed.consume 10).buf.cursors_ok :=
  ⟨by decide, by decide, by decide, by decide,
    (c16_calls_keep_cursors test_buffer_committed 10 (by decide) (by decide) (by decide)).1,
    (c16_calls_keep_cursors test_buffer_committed 10 (by decide) (by decide) (by decide)).2.2
      (by decide)⟩

/-- C18 (code defect, evaluated): the last stage of the test scenario has `read_index = 32`,
`write_index = 37` and satisfies the cursor invariant; for `n = INT_MAX` the mathematical sum
`read_index + n` exceeds `write_index`, yet neither guard of `consume` fires and `read_index`
becomes `-2147483617`: the guards computed in 32-bit arithmetic do not agree with the
comparison over unbounded integers. -/
theorem c18_counterexample :
    (scenario_consumed_19 (List.replicate 64 0)).cursors_ok ∧
    (scenario_consumed_19 (List.replicate 64 0)).m_read_index + 2147483647
      > (scenario_consumed_19 (List.replicate 64 0)).m_write_index ∧
    ¬ (scenario_consumed_19 (List.replicate 64 0)).consume_rejected 2147483647 ∧
    ((scenario_consumed_19 (List.replicate 64 0)).consume 2147483647).ret ≠ -1 ∧
    ((scenario_consumed_19 (List.replicate 64 0)).consume 2147483647).buf.m_read_index
      = -2147483617 := by
  decide

/-- Agreement of the guards where the sum fits: in every state with
`0 ≤ read_index ≤ write_index ≤ capacity` and for every `int n` whose sum `read_index + n` does
not exceed `INT_MAX`, the guards of `consume` fire exactly when `read_index + n > write_index`
over the unbounded integers, and then the call returns `-1` and leaves the object unchanged. -/
theorem c18_guard_agrees_in_range (b : array_buffer sz cap) (n : Int) (hc : b.cursors_ok)
    (hlo : INT_MIN ≤ n) (hsum : b.m_read_index + n ≤ INT_MAX) :
    (b.consume_rejected n ↔ b.m_read_index + n > b.m_write_index) ∧
    (b.m_read_index + n > b.m_write_index →
      (b.consume n).ret = -1 ∧ (b.consume n).buf = b) := by
  obtain ⟨h0, h1, h2⟩ := hc
  unfold array_buffer.capacity at h2
  unfold INT_MAX at hsum
  unfold INT_MIN at hlo
  have hr : wrap_int (b.m_read_index + n) = b.m_read_index + n :=
    wrap_int_of_range _ (by omega) (by omega)
  have hiff : b.consume_rejected n ↔ b.m_read_index + n > b.m_write_index := by
    unfold array_buffer.consume_rejected array_buffer.capacity
    rw [hr]
    constructor
    · intro h
      rcases h with h | h <;> omega
    · intro h
      exact Or.inr h
  refine ⟨hiff, fun h => ?_⟩
  unfold array_buffer.consume array_buffer.capacity
  rw [hr]
  by_cases h3 : b.m_read_index + n > (cap : Int)
  · rw [if_pos h3]
    exact ⟨rfl, rfl⟩
  · rw [if_neg h3, if_pos h]
    exact ⟨rfl, rfl⟩

/-- Instance of `c18_guard_agrees_in_range` on the test buffer: `consume(43)` with 42
readable. -/
theorem c18_guard_agrees_in_range_witness :
    test_buffer_committed.cursors_ok ∧ INT_MIN ≤ (43 : Int) ∧
    test_buffer_committed.m_read_index + 43 ≤ INT_MAX ∧
    (test_buffer_committed.consume_rejected 43 ↔
      test_buffer_committed.m_read_index + 43 > test_buffer_committed.m_write_index) :=
  ⟨by decide, by decide, by decide,
    (c18_guard_agrees_in_range test_buffer_committed 43 (by decide) (by decide) (by decide)).1⟩

/-! ## The rendering `to_stream` -/

theorem to_stream_marker_eq (b : array_buffer sz cap) (hcap : (cap : Int) ≤ INT_MAX)
    (hc : b.cursors_ok) (i : Nat) :
    b.to_stream_marker (i : Int) = spec_marker b.m_read_index b.m_write_index i := by
  obtain ⟨h0, h1, h2⟩ := hc
  unfold array_buffer.capacity at h2
  unfold INT_MAX at hcap
  have hfs : b.free_size = (cap : Int) - b.m_write_index := by
    unfold array_buffer.free_size array_buffer.capacity
    exact wrap_int_of_range _ (by omega) (by omega)
  have hsz : b.size = b.m_write_index - b.m_read_index := by
    unfold array_buffer.size
    exact wrap_int_of_range _ (by omega) (by omega)
  have hw : wrap_int ((cap : Int) - b.free_size) = b.m_write_index := by
    rw [hfs, wrap_int_of_range _ (by omega) (by omega)]
    omega
  have hr : wrap_int (b.m_write_index - b.size) = b.m_read_index := by
    rw [hsz, wrap_int_of_range _ (by omega) (by omega)]
    omega
  unfold array_buffer.to_stream_marker spec_marker
  simp only [hw, hr]

theorem to_stream_slot_eq (b : array_buffer sz cap) (newline : String) (kind : elem_kind)
    (hcap : (cap : Int) ≤ INT_MAX) (hc : b.cursors_ok) (i : Nat) :
    b.to_stream_slot newline kind i =
      render_elem kind sz (b.elem_at i) ++ spec_marker b.m_read_index b.m_write_index i ++
        (if (i + 1) % 8 = 0 then newline else "") := by
  unfold array_buffer.to_stream_slot
  rw [to_stream_marker_eq b hcap hc i]
  by_cases h8 : (i + 1) % 8 = 0
  · have hpos : i > 0 := by omega
    rw [if_pos ⟨h8, hpos⟩, if_pos h8]
  · rw [if_neg (fun h => h8 h.1), if_neg h8]

theorem setw_fill_length (w : Nat) (text : String) (h : text.length ≤ w) :
    (setw_fill w text).length = w := by
  unfold setw_fill
  rw [String.length_append]
  simp only [String.length, List.length_replicate]
  simp only [String.length] at h
  omega

/-- For a stored value `0 ≤ v < 256 ^ sz` of an integral type of `1 ≤ sz ≤ 8` bytes the hex
text has exactly `2 * sz` characters. -/
theorem hex_cell_width_nonneg (sz : Nat) (v : Int) (hsz : 0 < sz) (hsz8 : sz ≤ 8)
    (h0 : 0 ≤ v) (hv : v < 256 ^ sz) : (hex_cell sz v).length = 2 * sz := by
  unfold hex_cell
  apply setw_fill_length
  have hpow : (256 : Int) ^ sz ≤ 256 ^ 8 := pow_le_pow_right₀ (by norm_num) hsz8
  have hu : to_uint64 v = v.toNat := by
    unfold to_uint64
    congr 1
    have : (256 : Int) ^ 8 = 18446744073709551616 := by norm_num
    omega
  have hlt : v.toNat < 16 ^ (2 * sz) := by
    have h1 : (16 : Nat) ^ (2 * sz) = 256 ^ sz := by
      rw [pow_mul]; norm_num
    rw [h1]
    have h2 : ((v.toNat : Nat) : Int) < ((256 ^ sz : Nat) : Int) := by
      rw [Int.toNat_of_nonneg h0]
      push_cast
      exact hv
    exact_mod_cast h2
  rw [hu]
  show (Nat.toDigits 16 v.toNat).length ≤ 2 * sz
  exact Nat.toDigitsCore_length 16 (by norm_num) _ _ _ hlt (by omega)

/-- C20 (code defect, evaluated): an `int8_t` element holding `-1` (object representation
`0xff`) is rendered by `to_stream` as `ffffffffffffffff`, 16 characters where the width
`2 * sizeof(int8_t)` is 2; an `int16_t` holding `-2` gives `fffffffffffffffe`.  The cast to
`std::uint64_t` sign-extends, and `std::setw` never truncates. -/
theorem c20_negative_value_width :
    integral_value true [255] = -1 ∧
    render_elem (elem_kind.integral true) 1 [255] = "ffffffffffffffff" ∧
    (render_elem (elem_kind.integral true) 1 [255]).length = 16 ∧
    (render_elem (elem_kind.integral true) 1 [255]).length ≠ 2 * 1 ∧
    integral_value true [254, 255] = -2 ∧
    render_elem (elem_kind.integral true) 2 [254, 255] = "fffffffffffffffe" ∧
    (render_elem (elem_kind.integral true) 2 [254, 255]).length ≠ 2 * 2 ∧
    render_elem (elem_kind.integral false) 1 [255] = "ff" := by
  decide

theorem le_value_lt (bytes : List Nat) (hb : ∀ x ∈ bytes, x < 256) :
    le_value bytes < 256 ^ bytes.length := by
  induction bytes with
  | nil => simp [le_value]
  | cons x xs ih =>
    have hx : x < 256 := hb x (List.mem_cons_self x xs)
    have hxs := ih (fun y hy => hb y (List.mem_cons_of_mem x hy))
    simp only [le_value, List.length_cons, pow_succ]
    omega

/-- For an unsigned integral element type of `1 ≤ sz ≤ 8` bytes every stored value is
rendered with exactly `2 * sz` characters. -/
theorem render_unsigned_width (sz : Nat) (bytes : List Nat) (hsz : 0 < sz) (hsz8 : sz ≤ 8)
    (hlen : bytes.length = sz) (hb : ∀ x ∈ bytes, x < 256) :
    (render_elem (elem_kind.integral false) sz bytes).length = 2 * sz := by
  have hlt := le_value_lt bytes hb
  rw [hlen] at hlt
  have hval : integral_value false bytes = (le_value bytes : Int) := by
    unfold integral_value
    rw [if_neg (fun h => Bool.noConfusion h.1)]
  show (hex_cell sz (integral_value false bytes)).length = 2 * sz
  rw [hval]
  apply hex_cell_width_nonneg sz _ hsz hsz8 (Int.ofNat_nonneg _)
  exact_mod_cast hlt

/-! ## The failure value -/

/-- C10 (amended): in every buffer state and for every `int n`, a rejected `commit(n)`
(respectively `consume(n)`) returns `-1` and an accepted one returns `n`; hence for `n ≠ -1`
the return value is `-1` if and only if the call was rejected, and for `n = -1` the call
returns `-1` whether it was rejected or accepted. -/
theorem c10_failure_value (b : array_buffer sz cap) (n : Int) :
    (b.commit_rejected n → (b.commit n).ret = -1) ∧
    (b.consume_rejected n → (b.consume n).ret = -1) ∧
    (¬ b.commit_rejected n → (b.commit n).ret = n) ∧
    (¬ b.consume_rejected n → (b.consume n).ret = n) ∧
    (n ≠ -1 →
      ((b.commit n).ret = -1 ↔ b.commit_rejected n) ∧
      ((b.consume n).ret = -1 ↔ b.consume_rejected n)) ∧
    (n = -1 → (b.commit n).ret = -1 ∧ (b.consume n).ret = -1) := by
  have hc : ¬ b.commit_rejected n → (b.commit n).ret = n := by
    intro hrej
    unfold array_buffer.commit_rejected at hrej
    unfold array_buffer.commit
    rw [if_neg hrej]
    dsimp only
    split <;> rfl
  have hc2 : b.commit_rejected n → (b.commit n).ret = -1 := by
    intro hrej
    unfold array_buffer.commit_rejected at hrej
    unfold array_buffer.commit
    rw [if_pos hrej]
  have hd : ¬ b.consume_rejected n → (b.consume n).ret = n := by
    intro hrej
    unfold array_buffer.consume_rejected at hrej
    unfold array_buffer.consume
    rw [if_neg (fun h => hrej (Or.inl h)), if_neg (fun h => hrej (Or.inr h))]
    dsimp only
    split <;> rfl
  have hd2 : b.consume_rejected n → (b.consume n).ret = -1 := by
    intro hrej
    unfold array_buffer.consume
    by_cases h1 : wrap_int (b.m_read_index + n) > b.capacity
    · rw [if_pos h1]
    · rw [if_neg h1]
      have h2 : wrap_int (b.m_read_index + n) > b.m_write_index := by
        rcases hrej with h | h
        · exact absurd h h1
        · exact h
      rw [if_pos h2]
  refine ⟨hc2, hd2, hc, hd, fun hn => ⟨⟨fun h => ?_, hc2⟩, ⟨fun h => ?_, hd2⟩⟩, fun hn => ⟨?_, ?_⟩⟩
  · by_contra hrej
    exact hn ((hc hrej).symm.trans h)
  · by_contra hrej
    exact hn ((hd hrej).symm.trans h)
  · by_cases hrej : b.commit_rejected n
    · exact hc2 hrej
    · rw [hc hrej, hn]
  · by_cases hrej : b.consume_rejected n
    · exact hd2 hrej
    · rw [hd hrej, hn]

/-- Witness of C10 (amended): on the test buffer with `n = 23` the commit is rejected and the
consume accepted; on a fresh 64-byte buffer `commit(-1)` and `consume(-1)` are accepted and
return `-1`. -/
theorem c10_failure_value_witness :
    (23 : Int) ≠ -1 ∧
    ((test_buffer_committed.commit 23).ret = -1 ↔ test_buffer_committed.commit_rejected 23) ∧
    ((test_buffer_committed.consume 23).ret = -1 ↔ test_buffer_committed.consume_rejected 23) ∧
    ¬ (array_buffer.construct 1 64 (List.replicate 64 0)).commit_rejected (-1) ∧
    ¬ (array_buffer.construct 1 64 (List.replicate 64 0)).consume_rejected (-1) ∧
    ((array_buffer.construct 1 64 (List.replicate 64 0)).commit (-1)).ret = -1 ∧
    ((array_buffer.construct 1 64 (List.replicate 64 0)).consume (-1)).ret = -1 :=
  ⟨by decide, ((c10_failure_value test_buffer_committed 23).2.2.2.2.1 (by decide)).1,
    ((c10_failure_value test_buffer_committed 23).2.2.2.2.1 (by decide)).2,
    by decide, by decide,
    ((c10_failure_value (array_buffer.construct 1 64 (List.replicate 64 0)) (-1)).2.2.2.2.2
      rfl).1,
    ((c10_failure_value (array_buffer.construct 1 64 (List.replicate 64 0)) (-1)).2.2.2.2.2
      rfl).2⟩

/-! ## The low-water mark along call sequences that stay in bounds -/

theorem relocate_storage_ok (b : array_buffer sz cap) (hs : b.storage_ok) :
    b.relocate.1.storage_ok := by
  unfold array_buffer.storage_ok at hs ⊢
  unfold array_buffer.relocate
  split
  · exact hs
  · simp only [memset_length, memcpy_length]
    exact hs

theorem step_storage_ok (b : array_buffer sz cap) (c : call) (hs : b.storage_ok) :
    (b.step c).storage_ok := by
  cases c with
  | set_min_free n =>
    show (b.set_min_free n).buf.storage_ok
    unfold array_buffer.set_min_free
    split <;> exact hs
  | commit n =>
    show (b.commit n).buf.storage_ok
    unfold array_buffer.commit
    split
    · exact hs
    · dsimp only
      split
      · exact relocate_storage_ok _ hs
      · exact hs
  | consume n =>
    show (b.consume n).buf.storage_ok
    unfold array_buffer.consume
    split
    · exact hs
    · split
      · exact hs
      · dsimp only
        split
        · exact relocate_storage_ok _ hs
        · exact hs

theorem run_storage_ok (b : array_buffer sz cap) (cs : List call) (hs : b.storage_ok) :
    (b.run cs).storage_ok := by
  induction cs generalizing b with
  | nil => exact hs
  | cons c cs ih => exact ih (b.step c) (step_storage_ok b c hs)

theorem construct_storage_ok (sz cap : Nat) (raw : List Nat) (hraw : raw.length = cap * sz) :
    (array_buffer.construct sz cap raw).storage_ok := by
  unfold array_buffer.storage_ok array_buffer.construct
  dsimp only
  rw [memset_length, hraw]

/-- With valid cursors, a storage of `TCapacity` elements and `sizeof(T) ≥ 1`, the copy of
`relocate` stays inside the storage. -/
theorem relocate_in_bounds_of_cursors_ok (b : array_buffer sz cap) (hsz : 0 < sz)
    (hcap : (cap : Int) ≤ INT_MAX) (hs : b.storage_ok) (hc : b.cursors_ok) :
    b.relocate_in_bounds := by
  obtain ⟨h0, h1, h2⟩ := hc
  unfold array_buffer.capacity at h2
  unfold array_buffer.storage_ok at hs
  unfold INT_MAX at hcap
  have hw : wrap_int (b.m_write_index - b.m_read_index) = b.m_write_index - b.m_read_index :=
    wrap_int_of_range _ (by omega) (by omega)
  have hf : wrap_int ((cap : Int) - (b.m_write_index - b.m_read_index))
      = (cap : Int) - (b.m_write_index - b.m_read_index) :=
    wrap_int_of_range _ (by omega) (by omega)
  have hlen : (b.m_buf.length : Int) = (cap : Int) * (sz : Int) := by
    rw [hs]; push_cast; ring
  have hsz1 : (1 : Int) ≤ (sz : Int) := by exact_mod_cast hsz
  unfold array_buffer.relocate_in_bounds array_buffer.size array_buffer.capacity
  rw [hw, hf, hlen]
  refine ⟨h0, by omega, ?_, by omega, by omega, ?_⟩
  · nlinarith [mul_nonneg (sub_nonneg.mpr h1) (sub_nonneg.mpr hsz1),
      mul_nonneg (sub_nonneg.mpr h2) (by omega : (0 : Int) ≤ (sz : Int))]
  · nlinarith [mul_nonneg (sub_nonneg.mpr h0) (sub_nonneg.mpr hsz1),
      mul_nonneg (sub_nonneg.mpr h2) (sub_nonneg.mpr hsz1),
      mul_nonneg (sub_nonneg.mpr h1) (sub_nonneg.mpr hsz1)]

/-- C12 (amended): in every state reachable from construction through `set_min_free`, `commit`
and `consume` calls whose `commit`/`consume` counts are non-negative and whose `consume` sums
`read_index + n` do not exceed `INT_MAX` (so that the cursors stay valid and every access stays
inside the storage), the stored low-water mark is at most `capacity/2`, for arbitrary
`set_min_free` arguments; it is also at least `0` when every `set_min_free` argument of the
sequence is non-negative. -/
theorem c12_min_free_bounds (sz cap : Nat) (raw : List Nat) (cs : List call)
    (hcap : (cap : Int) ≤ INT_MAX) (hraw : raw.length = cap * sz)
    (ha : (array_buffer.construct sz cap raw).args_in_range cs) :
    ((array_buffer.construct sz cap raw).run cs).cursors_ok ∧
    ((array_buffer.construct sz cap raw).run cs).storage_ok ∧
    ((array_buffer.construct sz cap raw).run cs).m_min_free
      ≤ ((array_buffer.construct sz cap raw).run cs).capacity / 2 ∧
    ((∀ c ∈ cs, c.min_free_arg_nonneg) →
      0 ≤ ((array_buffer.construct sz cap raw).run cs).m_min_free) :=
  ⟨run_cursors_ok _ cs (construct_cursors_ok sz cap raw) hcap ha,
    run_storage_ok _ cs (construct_storage_ok sz cap raw hraw),
    run_min_free_le _ cs (construct_min_free sz cap raw).2,
    fun hc => run_min_free_nonneg _ cs (construct_min_free sz cap raw).1 hc⟩

/-- Witness of C12 (amended): a sequence whose `set_min_free` arguments are `24` and `100`. -/
theorem c12_min_free_bounds_witness :
    ((64 : Nat) : Int) ≤ INT_MAX ∧ (List.replicate 64 0).length = 64 * 1 ∧
    (array_buffer.construct 1 64 (List.replicate 64 0)).args_in_range
      [call.set_min_free 24, call.commit 42, call.set_min_free 100, call.consume 5] ∧
    (∀ c ∈ [call.set_min_free 24, call.commit 42, call.set_min_free 100, call.consume 5],
      c.min_free_arg_nonneg) ∧
    ((array_buffer.construct 1 64 (List.replicate 64 0)).run
      [call.set_min_free 24, call.commit 42, call.set_min_free 100, call.consume 5]).m_min_free
      ≤ ((array_buffer.construct 1 64 (List.replicate 64 0)).run
        [call.set_min_free 24, call.commit 42, call.set_min_free 100,
          call.consume 5]).capacity / 2 ∧
    0 ≤ ((array_buffer.construct 1 64 (List.replicate 64 0)).run
      [call.set_min_free 24, call.commit 42, call.set_min_free 100, call.consume 5]).m_min_free :=
  ⟨by decide, by decide, by decide, by decide,
    (c12_min_free_bounds 1 64 (List.replicate 64 0)
      [call.set_min_free 24, call.commit 42, call.set_min_free 100, call.consume 5]
      (by decide) (by decide) (by decide)).2.2.1,
    (c12_min_free_bounds 1 64 (List.replicate 64 0)
      [call.set_min_free 24, call.commit 42, call.set_min_free 100, call.consume 5]
      (by decide) (by decide) (by decide)).2.2.2 (by decide)⟩

theorem advance_write_cursors_ok (b : array_buffer sz cap) (n : Int) (hc : b.cursors_ok)
    (hcap : (cap : Int) ≤ INT_MAX) (hn : 0 ≤ n) (hrej : ¬ b.commit_rejected n) :
    (b.advance_write n).cursors_ok := by
  obtain ⟨h0, h1, h2⟩ := hc
  unfold array_buffer.capacity at h2
  unfold INT_MAX at hcap
  have hfs : b.free_size = (cap : Int) - b.m_write_index := by
    unfold array_buffer.free_size array_buffer.capacity
    exact wrap_int_of_range _ (by omega) (by omega)
  unfold array_buffer.commit_rejected at hrej
  rw [hfs] at hrej
  have hw : wrap_int (b.m_write_index + n) = b.m_write_index + n :=
    wrap_int_of_range _ (by omega) (by omega)
  unfold array_buffer.advance_write
  simp only [array_buffer.cursors_ok, array_buffer.capacity, hw]
  omega

theorem advance_read_cursors_ok (b : array_buffer sz cap) (n : Int) (hc : b.cursors_ok)
    (hn : 0 ≤ n) (hsum : b.m_read_index + n ≤ INT_MAX) (hrej : ¬ b.consume_rejected n) :
    (b.advance_read n).cursors_ok := by
  obtain ⟨h0, h1, h2⟩ := hc
  unfold array_buffer.capacity at h2
  unfold INT_MAX at hsum
  have hr : wrap_int (b.m_read_index + n) = b.m_read_index + n :=
    wrap_int_of_range _ (by omega) (by omega)
  unfold array_buffer.consume_rejected array_buffer.capacity at hrej
  rw [hr] at hrej
  unfold array_buffer.advance_read
  simp only [array_buffer.cursors_ok, array_buffer.capacity, hr]
  omega

theorem relocate_runs_of_trigger (b : array_buffer sz cap)
    (hle : b.m_min_free ≤ b.capacity / 2) (ht : b.free_size < b.m_min_free) :
    b.relocate.2 = true ∧ b.relocate.1.m_read_index = 0 := by
  obtain ⟨r1, r2⟩ := relocate_copied_iff b
  have hcopy : b.relocate.2 = true := r1.mpr (by omega)
  exact ⟨hcopy, r2 hcopy⟩

theorem digitChar_eq_spec_digit (d : Nat) (h : d < 16) : Nat.digitChar d = spec_digit d := by
  interval_cases d <;> rfl

theorem spec_hex_zero (w : Nat) : spec_hex w 0 = List.replicate w '0' := by
  induction w with
  | zero => rfl
  | succ w ih =>
    simp only [spec_hex, Nat.zero_div, ih, List.replicate_succ']
    rfl

theorem toDigitsCore_acc (fuel n : Nat) (ds : List Char) :
    Nat.toDigitsCore 16 fuel n ds = Nat.toDigitsCore 16 fuel n [] ++ ds := by
  induction fuel generalizing n ds with
  | zero => simp [Nat.toDigitsCore]
  | succ f ih =>
    simp only [Nat.toDigitsCore]
    split
    · rfl
    · rw [ih (n / 16) (Nat.digitChar (n % 16) :: ds), ih (n / 16) [Nat.digitChar (n % 16)]]
      simp

theorem pad_toDigitsCore (w fuel n : Nat) (hf : n < fuel) (hn : n < 16 ^ (w + 1)) :
    List.replicate (w + 1 - (Nat.toDigitsCore 16 fuel n []).length) '0'
      ++ Nat.toDigitsCore 16 fuel n [] = spec_hex (w + 1) n := by
  induction w generalizing fuel n with
  | zero =>
    obtain ⟨f, rfl⟩ : ∃ f, fuel = f + 1 := ⟨fuel - 1, by omega⟩
    have h0 : n / 16 = 0 := by omega
    have hd := digitChar_eq_spec_digit (n % 16) (Nat.mod_lt _ (by norm_num))
    simp [Nat.toDigitsCore, h0, spec_hex, hd]
  | succ w ih =>
    obtain ⟨f, rfl⟩ : ∃ f, fuel = f + 1 := ⟨fuel - 1, by omega⟩
    have hd := digitChar_eq_spec_digit (n % 16) (Nat.mod_lt _ (by norm_num))
    by_cases h0 : n / 16 = 0
    · have : spec_hex (w + 1 + 1) n = List.replicate (w + 1) '0' ++ [spec_digit (n % 16)] := by
        show spec_hex (w + 1) (n / 16) ++ [spec_digit (n % 16)] = _
        rw [h0, spec_hex_zero]
      rw [this]
      simp [Nat.toDigitsCore, h0, hd]
    · have hlt : n / 16 < 16 ^ (w + 1) := by
        apply Nat.div_lt_of_lt_mul
        rw [← pow_succ']
        exact hn
      have hfl : n / 16 < f := by omega
      have key := ih f (n / 16) hfl hlt
      have hlen : (Nat.toDigitsCore 16 f (n / 16) []).length ≤ w + 1 :=
        Nat.toDigitsCore_length 16 (by norm_num) f (n / 16) (w + 1) hlt (by omega)
      show _ = spec_hex (w + 1) (n / 16) ++ [spec_digit (n % 16)]
      rw [← key]
      simp only [Nat.toDigitsCore, h0, if_false]
      rw [toDigitsCore_acc f (n / 16) [Nat.digitChar (n % 16)], hd]
      simp only [List.length_append, List.length_singleton, List.append_assoc]
      congr 2
      omega

theorem string_join_cons (x : String) (xs : List String) :
    String.join (x :: xs) = x ++ String.join xs := by
  rw [String.join_eq, String.join_eq]
  apply String.ext
  simp [String.data_append]

theorem le_value_eq_spec_value (bytes : List Nat) : le_value bytes = spec_value bytes := by
  induction bytes with
  | nil => rfl
  | cons x xs ih =>
    show x + 256 * le_value xs = x + 256 * spec_value xs
    rw [ih]

theorem setw_fill_mk (w : Nat) (ds : List Char) :
    setw_fill w (String.mk ds) = String.mk (List.replicate (w - ds.length) '0' ++ ds) := by
  unfold setw_fill
  apply String.ext
  simp [String.data_append]

/-- For a value `m < 16 ^ (2 * sz)` that fits 64 bits, the text that the source inserts is the
fixed-width hexadecimal text of the specification. -/
theorem hex_cell_eq_spec_hex (sz m : Nat) (hsz : 0 < sz) (hm : m < 16 ^ (2 * sz))
    (h64 : m < 18446744073709551616) :
    hex_cell sz (m : Int) = String.mk (spec_hex (2 * sz) m) := by
  have hu : to_uint64 (m : Int) = m := by
    unfold to_uint64
    omega
  unfold hex_cell
  rw [hu, setw_fill_mk]
  congr 1
  obtain ⟨w, hw⟩ : ∃ w, 2 * sz = w + 1 := ⟨2 * sz - 1, by omega⟩
  rw [hw] at hm ⊢
  exact pad_toDigitsCore w (m + 1) m (by omega) hm

theorem elem_at_length (b : array_buffer sz cap) (hs : b.storage_ok) (i : Nat) (hi : i < cap) :
    (b.elem_at i).length = sz := by
  unfold array_buffer.storage_ok at hs
  unfold array_buffer.elem_at
  rw [List.length_take, List.length_drop, hs]
  have h1 : (i + 1) * sz ≤ cap * sz := Nat.mul_le_mul_right sz hi
  have h2 : (i + 1) * sz = i * sz + sz := by ring
  omega

theorem elem_at_bytes (b : array_buffer sz cap) (hb : ∀ x ∈ b.m_buf, x < 256) (i : Nat) :
    ∀ x ∈ b.elem_at i, x < 256 := by
  intro x hx
  unfold array_buffer.elem_at at hx
  exact hb x (List.mem_of_mem_drop (List.mem_of_mem_take hx))

theorem integral_value_nonneg (b : array_buffer sz cap) (s : Bool) (hs : b.storage_ok)
    (hv : b.values_nonneg (elem_kind.integral s)) (i : Nat) (hi : i < cap) :
    integral_value s (b.elem_at i) = (le_value (b.elem_at i) : Int) := by
  unfold integral_value
  cases s with
  | false => rw [if_neg (fun h => Bool.noConfusion h.1)]
  | true =>
    have h := hv i hi
    rw [← le_value_eq_spec_value] at h
    rw [elem_at_length b hs i hi]
    rw [if_neg]
    intro hc
    have h2 : le_value (b.elem_at i) < 2 ^ (8 * sz - 1) := h
    omega

/-- Value text of slot `i < capacity` of an integral type holding non-negative values: the
source's text is the fixed-width hexadecimal text of the slot's value. -/
theorem render_integral_eq_spec (b : array_buffer sz cap) (s : Bool) (hsz : 0 < sz)
    (hsz8 : sz ≤ 8) (hs : b.storage_ok) (hb : ∀ x ∈ b.m_buf, x < 256)
    (hv : b.values_nonneg (elem_kind.integral s)) (i : Nat) (hi : i < cap) :
    render_elem (elem_kind.integral s) sz (b.elem_at i)
      = String.mk (spec_hex (2 * sz) (spec_value ((b.m_buf.drop (i * sz)).take sz))) := by
  have hlen := elem_at_length b hs i hi
  have hlt := le_value_lt (b.elem_at i) (elem_at_bytes b hb i)
  rw [hlen] at hlt
  have hval := integral_value_nonneg b s hs hv i hi
  have h16 : (16 : Nat) ^ (2 * sz) = 256 ^ sz := by
    rw [pow_mul]; norm_num
  have h64 : (256 : Nat) ^ sz ≤ 256 ^ 8 := Nat.pow_le_pow_right (by norm_num) hsz8
  have h64' : (256 : Nat) ^ 8 = 18446744073709551616 := by norm_num
  show hex_cell sz (integral_value s (b.elem_at i)) = _
  rw [hval, hex_cell_eq_spec_hex sz _ hsz (by rw [h16]; exact hlt) (by omega),
    le_value_eq_spec_value]
  rfl

theorem spec_dump_from_eq (b : array_buffer sz cap) (newline : String) (s : Bool)
    (hsz : 0 < sz) (hsz8 : sz ≤ 8) (hcap : (cap : Int) ≤ INT_MAX) (hc : b.cursors_ok)
    (hs : b.storage_ok) (hb : ∀ x ∈ b.m_buf, x < 256)
    (hv : b.values_nonneg (elem_kind.integral s)) (n i : Nat) (hin : i + n ≤ cap) :
    String.join ((List.range' i n).map (b.to_stream_slot newline (elem_kind.integral s)))
      = spec_dump_from newline sz b.m_read_index b.m_write_index i n (b.m_buf.drop (i * sz)) := by
  induction n generalizing i with
  | zero => rfl
  | succ n ih =>
    rw [List.range'_succ, List.map_cons, string_join_cons, ih (i + 1) (by omega),
      to_stream_slot_eq b newline _ hcap hc i,
      render_integral_eq_spec b s hsz hsz8 hs hb hv i (by omega)]
    have hd : List.drop ((i + 1) * sz) b.m_buf = List.drop sz (List.drop (i * sz) b.m_buf) := by
      rw [List.drop_drop]
      congr 1
      ring
    rw [hd]
    rfl

/-- C19: from every state with `0 ≤ read_index ≤ write_index ≤ capacity`, `to_stream` emits one
cell per storage slot, for the slots `0 .. capacity - 1` in offset order: the value of slot `i`
(for integral elements holding non-negative values: its hexadecimal text of width
`2 * sizeof(T)`), followed by the marker `<-rw` if `i` is both `read_index` and `write_index`,
`<-r` if only `read_index`, `<-w` if only `write_index`, blanks otherwise, and by a line break
after every 8th slot; the object is not modified. -/
theorem c19_to_stream (b : array_buffer sz cap) (newline : String)
    (hcap : (cap : Int) ≤ INT_MAX) (hc : b.cursors_ok) :
    (∀ s : Bool, 0 < sz → sz ≤ 8 → b.storage_ok → (∀ x ∈ b.m_buf, x < 256) →
      b.values_nonneg (elem_kind.integral s) →
      (b.to_stream newline (elem_kind.integral s)).1 = spec_dump newline b) ∧
    (∀ (kind : elem_kind) (i : Nat), b.to_stream_slot newline kind i =
      render_elem kind sz (b.elem_at i) ++ spec_marker b.m_read_index b.m_write_index i ++
        (if (i + 1) % 8 = 0 then newline else "")) ∧
    (∀ kind : elem_kind, (b.to_stream newline kind).1
      = String.join ((List.range cap).map (b.to_stream_slot newline kind))) ∧
    (∀ kind : elem_kind, (b.to_stream newline kind).2 = b) := by
  refine ⟨?_, fun kind i => to_stream_slot_eq b newline kind hcap hc i, fun _ => rfl,
    fun _ => rfl⟩
  intro s hsz hsz8 hs hb hv
  have h := spec_dump_from_eq b newline s hsz hsz8 hcap hc hs hb hv cap 0 (by omega)
  rw [Nat.zero_mul, List.drop_zero, ← List.range_eq_range'] at h
  exact h

/-- Witness of C19: the dump of the test buffer, an `array_buffer<uint8_t, 64>` with
`read_index = 0` and `write_index = 42`. -/
theorem c19_to_stream_witness :
    ((64 : Nat) : Int) ≤ INT_MAX ∧ test_buffer_committed.cursors_ok ∧
    test_buffer_committed.storage_ok ∧ (∀ x ∈ test_buffer_committed.m_buf, x < 256) ∧
    test_buffer_committed.values_nonneg (elem_kind.integral false) ∧
    (test_buffer_committed.to_stream "\n" (elem_kind.integral false)).1
      = spec_dump "\n" test_buffer_committed :=
  ⟨by decide, by decide, by decide, by decide, trivial,
    (c19_to_stream test_buffer_committed "\n" (by decide) (by decide)).1 false (by decide)
      (by decide) (by decide) (by decide) trivial⟩

end BufferLib
